import Mathlib

/-!
Verification development for the CaptainJackSparrow chatbot repository.

The embedding covers:
* `src/tools.py`    — `Calculator._safe_eval`, `Calculator.calculate`,
  `Calculator.extract_and_calculate`, `format_calculator_response`;
* `src/memory.py`   — `Memory.add_message`, `get_context_string`, `get_turn_count`;
* `src/vector_store.py` — `VectorStore.query` (embedding and similarity
  search over an in-memory list of documents);
* `src/chatbot.py`  — `SparrowBot.chat` and `_build_context_prompt`.

Modelling conventions:
* Python numbers (int / float) are modelled as exact rationals tagged with an
  `isFloat` flag.  Floating-point rounding, overflow and the repr of
  non-terminating decimals are outside the rational model; no claim below
  depends on them.  `float.__pow__` with a non-integral exponent (whose value
  is irrational in general) is likewise outside the rational fragment and is
  mapped to a distinguished evaluation error; no claim exercises it.
* `ast.parse(expression, mode='eval')` (CPython) is modelled by a tokenizer
  and recursive-descent parser for the token alphabet reachable from the
  repository's inputs: numeric literals, identifiers, `+ - * / ** // ^ ( )`
  and whitespace, with Python's precedence (`**` highest and right
  associative, then unary sign, then `* / //`, then `+ -`, then `^` which is
  Python's XOR).  Scientific-notation literals are not modelled (unused).
* External effects (the system clock, `random.choice`, the Gemini backend and
  the sentence-transformer embedding) are passed explicitly in a `ChatEnv`;
  a call into an external component that raises is modelled with `Except`.
-/

/-! ## Numbers: Python int/float as tagged exact fractions

`Frac` is a fraction of machine-unbounded integers kept in lowest terms with
a positive denominator; `Frac.toRat` is its value in `ℚ`.  (A bespoke type is
used instead of `ℚ` so that every arithmetic step is kernel-computable.) -/

structure Frac where
  num : Int
  den : Int
deriving DecidableEq, Repr

/-- Reduce to lowest terms with a positive denominator. -/
def Frac.norm (f : Frac) : Frac :=
  if f.num = 0 then ⟨0, 1⟩
  else
    let s : Int := if f.den < 0 then -1 else 1
    let g : Int := (Nat.gcd f.num.natAbs f.den.natAbs : Int)
    ⟨s * f.num / g, s * f.den / g⟩

/-- Value of the fraction as a rational number. -/
def Frac.toRat (f : Frac) : ℚ := (f.num : ℚ) / (f.den : ℚ)

def Frac.ofInt (n : Int) : Frac := ⟨n, 1⟩

def Frac.add (a b : Frac) : Frac := Frac.norm ⟨a.num * b.den + b.num * a.den, a.den * b.den⟩

def Frac.sub (a b : Frac) : Frac := Frac.norm ⟨a.num * b.den - b.num * a.den, a.den * b.den⟩

def Frac.mul (a b : Frac) : Frac := Frac.norm ⟨a.num * b.num, a.den * b.den⟩

/-- Exact division (caller rules out a zero divisor first). -/
def Frac.div (a b : Frac) : Frac := Frac.norm ⟨a.num * b.den, a.den * b.num⟩

def Frac.neg (a : Frac) : Frac := ⟨-a.num, a.den⟩

/-- Integer power (caller rules out `0 ^ negative`). -/
def Frac.zpow (a : Frac) (e : Int) : Frac :=
  if 0 ≤ e then Frac.norm ⟨a.num ^ e.toNat, a.den ^ e.toNat⟩
  else Frac.norm ⟨a.den ^ (-e).toNat, a.num ^ (-e).toNat⟩

/-- A Python number: exact value plus whether it is a `float`. -/
structure PyNum where
  val : Frac
  isFloat : Bool
deriving DecidableEq, Repr

/-! ## The Python expression AST (the fragment relevant to `_safe_eval`) -/

/-- Binary operator classes of the `ast` module that can appear under
`ast.BinOp` for the inputs in scope. -/
inductive BOp where
  | add | sub | mult | div | pow
  | bitXor | floorDiv | modOp | bitAnd | bitOr | matMult
deriving DecidableEq, Repr

/-- Unary operator classes under `ast.UnaryOp`. -/
inductive UOp where
  | usub | uadd | notOp | invert
deriving DecidableEq, Repr

/-- Python expression AST nodes (`ast` module) as far as `_safe_eval`
distinguishes them: numbers, binary and unary operations are interpreted;
identifiers, calls, attribute access, non-numeric constants and every other
node type fall through to the `else` branch. -/
inductive PyExpr where
  | num (n : PyNum)
  | binOp (op : BOp) (l r : PyExpr)
  | unaryOp (op : UOp) (e : PyExpr)
  | name (id : String)
  | call (f : PyExpr) (args : List PyExpr)
  | attribute (obj : PyExpr) (attr : String)
  | constOther (repr : String)
  | otherNode (kind : String)
deriving Repr

/-- Printable name of a binary operator class, for error messages
(mirrors `type(node.op)` in the Python messages). -/
def BOp.clsName : BOp → String
  | .add => "Add" | .sub => "Sub" | .mult => "Mult" | .div => "Div"
  | .pow => "Pow" | .bitXor => "BitXor" | .floorDiv => "FloorDiv"
  | .modOp => "Mod" | .bitAnd => "BitAnd" | .bitOr => "BitOr"
  | .matMult => "MatMult"

def UOp.clsName : UOp → String
  | .usub => "USub" | .uadd => "UAdd" | .notOp => "Not" | .invert => "Invert"

def PyExpr.clsName : PyExpr → String
  | .num _ => "Num"
  | .binOp .. => "BinOp"
  | .unaryOp .. => "UnaryOp"
  | .name _ => "Name"
  | .call .. => "Call"
  | .attribute .. => "Attribute"
  | .constOther _ => "Constant"
  | .otherNode k => k

/-! ## `Calculator._safe_eval` -/

/-- Exceptions that `_safe_eval` can raise: `ZeroDivisionError` or a
`ValueError` with a message (`Unsupported operation` / `Unsupported
expression`).  `floatPowOutsideModel` marks `float.__pow__` with a
non-integral exponent, which leaves the rational fragment modelled here;
the Python code returns an irrational float there, and no claim uses it. -/
inductive EvalErr where
  | zeroDivision
  | valueError (msg : String)
  | floatPowOutsideModel
deriving DecidableEq, Repr

/-- `Calculator.OPERATORS` membership for binary operator classes:
`{Add, Sub, Mult, Div, Pow}` map to the corresponding `operator` functions,
everything else is absent (`dict.get` returns `None`). -/
def Calculator.binOpSupported : BOp → Bool
  | .add | .sub | .mult | .div | .pow => true
  | _ => false

/-- `Calculator.OPERATORS` membership for unary operator classes:
only `USub` (mapped to `operator.neg`) is present. -/
def Calculator.unOpSupported : UOp → Bool
  | .usub => true
  | _ => false

/-- Semantics of `op(left, right)` for the supported binary operators, on
tagged rationals.  `operator.truediv` produces a float and raises
`ZeroDivisionError` on a zero divisor; `operator.pow` with an integral
exponent is exact (int ** non-negative int stays int, a negative exponent or
a float operand gives a float, `0 ** negative` raises `ZeroDivisionError`). -/
def Calculator.applyBinOp (op : BOp) (a b : PyNum) : Except EvalErr PyNum :=
  match op with
  | .add => .ok ⟨a.val.add b.val, a.isFloat || b.isFloat⟩
  | .sub => .ok ⟨a.val.sub b.val, a.isFloat || b.isFloat⟩
  | .mult => .ok ⟨a.val.mul b.val, a.isFloat || b.isFloat⟩
  | .div =>
      if b.val.num = 0 then .error .zeroDivision
      else .ok ⟨a.val.div b.val, true⟩
  | .pow =>
      if b.val.den = 1 then
        if a.val.num = 0 ∧ b.val.num < 0 then .error .zeroDivision
        else .ok ⟨a.val.zpow b.val.num, a.isFloat || b.isFloat || decide (b.val.num < 0)⟩
      else .error .floatPowOutsideModel
  | _ => .error (.valueError ("Unsupported operation: " ++ op.clsName))

/-- Semantics of `op(operand)` for unary operators (`operator.neg`). -/
def Calculator.applyUnOp (op : UOp) (a : PyNum) : Except EvalErr PyNum :=
  match op with
  | .usub => .ok ⟨a.val.neg, a.isFloat⟩
  | _ => .error (.valueError ("Unsupported operation: " ++ op.clsName))

/-- `Calculator._safe_eval`: numbers evaluate to themselves; `BinOp`
evaluates left then right, then looks the operator class up in `OPERATORS`
and raises `ValueError` if absent; `UnaryOp` evaluates the operand then looks
up the operator; every other node raises `ValueError("Unsupported
expression: ...")`. -/
def Calculator.safe_eval : PyExpr → Except EvalErr PyNum
  | .num n => .ok n
  | .binOp op l r => do
      let a ← Calculator.safe_eval l
      let b ← Calculator.safe_eval r
      if Calculator.binOpSupported op then Calculator.applyBinOp op a b
      else .error (.valueError ("Unsupported operation: " ++ op.clsName))
  | .unaryOp op e => do
      let a ← Calculator.safe_eval e
      if Calculator.unOpSupported op then Calculator.applyUnOp op a
      else .error (.valueError ("Unsupported operation: " ++ op.clsName))
  | e => .error (.valueError ("Unsupported expression: " ++ e.clsName))

/-! ## `Calculator.calculate` result type -/

/-- The `error` entry of the result dict, as a tag: the division-by-zero
message or the `Invalid expression: <detail>` message. -/
inductive CalcError where
  | divByZero
  | invalidExpr (detail : String)
deriving DecidableEq, Repr

/-- Rendered error message, as the Python code builds it. -/
def CalcError.message : CalcError → String
  | .divByZero => "Cannot divide by zero, mate!"
  | .invalidExpr d => "Invalid expression: " ++ d

/-- The dict returned by `Calculator.calculate`:
`{'success': ..., 'result': ..., 'error': ...}`. -/
structure CalcResult where
  success : Bool
  result : Option PyNum
  error : Option CalcError
deriving DecidableEq, Repr

/-- Does the result carry an `Invalid expression` error? -/
def CalcResult.hasInvalidExprError : CalcResult → Bool
  | ⟨_, _, some (.invalidExpr _)⟩ => true
  | _ => false

/-- The `try/except` of `Calculator.calculate` around `_safe_eval`, given the
outcome of `ast.parse` (`none` models `SyntaxError`, which the blanket
`except Exception` also catches). -/
def Calculator.calcOfParse : Option PyExpr → CalcResult
  | none => ⟨false, none, some (.invalidExpr "SyntaxError")⟩
  | some t =>
      match Calculator.safe_eval t with
      | .ok v => ⟨true, some v, none⟩
      | .error .zeroDivision => ⟨false, none, some .divByZero⟩
      | .error (.valueError m) => ⟨false, none, some (.invalidExpr m)⟩
      | .error .floatPowOutsideModel =>
          ⟨false, none, some (.invalidExpr "float pow outside rational model")⟩

/-! ## Lexer for `ast.parse` on the reachable token alphabet -/

inductive Tok where
  | num (q : Frac) (isFloat : Bool)
  | ident (s : String)
  | plus | minus | star | slash | dstar | dslash | caret | lparen | rparen
deriving DecidableEq, Repr

/-- Numeric value of a digit run. -/
def digitsToNat (ds : List Char) : Nat :=
  ds.foldl (fun acc c => 10 * acc + (c.toNat - 48)) 0

/-- Value of `intPart.fracPart` as a fraction in lowest terms. -/
def ratOfDigits (ds fs : List Char) : Frac :=
  Frac.norm ⟨(digitsToNat ds : Int) * 10 ^ fs.length + (digitsToNat fs : Int), 10 ^ fs.length⟩

def isIdentChar (c : Char) : Bool := c.isAlphanum || c = '_'

/-- One step of the tokenizer at character `c` (with `cs` following):
either skip whitespace, emit one token together with the remaining
characters, or fail (modelling a CPython tokenize error at an unexpected
character).  Number literals are digit runs with an optional fractional
part, or `.digits`; identifiers are alphanumeric/underscore runs; `**` and
`//` are single tokens. -/
inductive LexAction where
  | skip (rest : List Char)
  | tok (t : Tok) (rest : List Char)
  | err

/-- Lex a number starting at digit `c`: the digit run, optionally followed
by `.` and a fractional digit run. -/
def lexNum (c : Char) (cs : List Char) : LexAction :=
  let ds := (c :: cs).takeWhile Char.isDigit
  let rest := (c :: cs).drop ds.length
  if rest.head? = some '.' then
    .tok (Tok.num (ratOfDigits ds (rest.tail.takeWhile Char.isDigit)) true)
      (rest.tail.drop (rest.tail.takeWhile Char.isDigit).length)
  else .tok (Tok.num (Frac.ofInt (digitsToNat ds : Int)) false) rest

/-- Lex a `.digits` float literal (the leading `.` already consumed). -/
def lexDotNum (cs : List Char) : LexAction :=
  if (cs.head?.map Char.isDigit).getD false then
    .tok (Tok.num (ratOfDigits [] (cs.takeWhile Char.isDigit)) true)
      (cs.drop (cs.takeWhile Char.isDigit).length)
  else .err

/-- Lex an identifier starting at `c`. -/
def lexIdent (c : Char) (cs : List Char) : LexAction :=
  let idrun := (c :: cs).takeWhile isIdentChar
  .tok (Tok.ident (String.mk idrun)) ((c :: cs).drop idrun.length)

/-- Lex an operator or parenthesis (`**` and `//` are single tokens). -/
def lexPunct (c : Char) (cs : List Char) : LexAction :=
  if c = '+' then .tok Tok.plus cs
  else if c = '-' then .tok Tok.minus cs
  else if c = '^' then .tok Tok.caret cs
  else if c = '(' then .tok Tok.lparen cs
  else if c = ')' then .tok Tok.rparen cs
  else if c = '*' then
    if cs.head? = some '*' then .tok Tok.dstar cs.tail else .tok Tok.star cs
  else if c = '/' then
    if cs.head? = some '/' then .tok Tok.dslash cs.tail else .tok Tok.slash cs
  else .err

def lexStep (c : Char) (cs : List Char) : LexAction :=
  if c = ' ' || c = '\t' then .skip cs
  else if c.isDigit then lexNum c cs
  else if c = '.' then lexDotNum cs
  else if c.isAlpha || c = '_' then lexIdent c cs
  else lexPunct c cs

/-- The tokenizer loop (fuelled; every step consumes at least one
character). -/
def lexTokens : Nat → List Char → Option (List Tok)
  | 0, _ => none
  | _, [] => some []
  | fuel + 1, c :: cs =>
    match lexStep c cs with
    | .skip rest => lexTokens fuel rest
    | .tok t rest => (lexTokens fuel rest).map (t :: ·)
    | .err => none

/-! ## Parser: Python expression grammar on these tokens

Grammar (`mode='eval'`, restricted to the reachable alphabet), loosest first:
`expr := arith ('^' arith)*` (XOR, left-assoc) — `arith := term (('+'|'-')
term)*` — `term := factor (('*'|'/'|'//') factor)*` — `factor := ('+'|'-')
factor | power` — `power := atom ('**' factor)?` (right-assoc, exponent may
carry unary sign) — `atom := NUMBER | NAME | '(' expr ')'`. -/

/-- Parser modes; loop modes carry the left-associated accumulator. -/
inductive PMode where
  | expr | arith | term | factor | power | atom
  | xorLoop (acc : PyExpr)
  | arithLoop (acc : PyExpr)
  | termLoop (acc : PyExpr)
  | powTail (base : PyExpr)

/-- Single fuelled structurally-recursive parser covering all grammar
levels. -/
def parseStep : Nat → PMode → List Tok → Option (PyExpr × List Tok)
  | 0, _, _ => none
  | fuel + 1, m, ts =>
    match m with
    | .expr => do
        let (a, ts1) ← parseStep fuel .arith ts
        parseStep fuel (.xorLoop a) ts1
    | .xorLoop acc =>
        match ts with
        | .caret :: rest => do
            let (b, ts1) ← parseStep fuel .arith rest
            parseStep fuel (.xorLoop (.binOp .bitXor acc b)) ts1
        | _ => some (acc, ts)
    | .arith => do
        let (a, ts1) ← parseStep fuel .term ts
        parseStep fuel (.arithLoop a) ts1
    | .arithLoop acc =>
        match ts with
        | .plus :: rest => do
            let (b, ts1) ← parseStep fuel .term rest
            parseStep fuel (.arithLoop (.binOp .add acc b)) ts1
        | .minus :: rest => do
            let (b, ts1) ← parseStep fuel .term rest
            parseStep fuel (.arithLoop (.binOp .sub acc b)) ts1
        | _ => some (acc, ts)
    | .term => do
        let (a, ts1) ← parseStep fuel .factor ts
        parseStep fuel (.termLoop a) ts1
    | .termLoop acc =>
        match ts with
        | .star :: rest => do
            let (b, ts1) ← parseStep fuel .factor rest
            parseStep fuel (.termLoop (.binOp .mult acc b)) ts1
        | .slash :: rest => do
            let (b, ts1) ← parseStep fuel .factor rest
            parseStep fuel (.termLoop (.binOp .div acc b)) ts1
        | .dslash :: rest => do
            let (b, ts1) ← parseStep fuel .factor rest
            parseStep fuel (.termLoop (.binOp .floorDiv acc b)) ts1
        | _ => some (acc, ts)
    | .factor =>
        match ts with
        | .plus :: rest => do
            let (a, ts1) ← parseStep fuel .factor rest
            some (.unaryOp .uadd a, ts1)
        | .minus :: rest => do
            let (a, ts1) ← parseStep fuel .factor rest
            some (.unaryOp .usub a, ts1)
        | _ => parseStep fuel .power ts
    | .power => do
        let (a, ts1) ← parseStep fuel .atom ts
        parseStep fuel (.powTail a) ts1
    | .powTail base =>
        match ts with
        | .dstar :: rest => do
            let (e, ts1) ← parseStep fuel .factor rest
            some (.binOp .pow base e, ts1)
        | _ => some (base, ts)
    | .atom =>
        match ts with
        | .num q f :: rest => some (.num ⟨q, f⟩, rest)
        | .ident s :: rest => some (.name s, rest)
        | .lparen :: rest => do
            let (a, ts1) ← parseStep fuel .expr rest
            match ts1 with
            | .rparen :: ts2 => some (a, ts2)
            | _ => none
        | _ => none

/-- `ast.parse(s, mode='eval')` on the modelled alphabet: lex, parse a full
expression, require all tokens consumed.  `none` models `SyntaxError`. -/
def pyParse (s : String) : Option PyExpr := do
  let ts ← lexTokens (s.data.length + 1) s.data
  match parseStep (20 * ts.length + 20) .expr ts with
  | some (e, []) => some e
  | _ => none

/-- Python's whitespace set for `str.strip` and `\s` (`re`, ASCII range). -/
def isPySpace (c : Char) : Bool :=
  c = ' ' || c = '\t' || c = '\n' || c = '\r' || c = '\x0b' || c = '\x0c'

/-- `str.strip()`: remove leading and trailing whitespace. -/
def pyStrip (l : List Char) : List Char :=
  ((l.dropWhile isPySpace).reverse.dropWhile isPySpace).reverse

/-- `Calculator.calculate`: strip the input, parse, evaluate, and package
success / `ZeroDivisionError` / any other exception as the result dict. -/
def Calculator.calculate (s : String) : CalcResult :=
  Calculator.calcOfParse (pyParse (String.mk (pyStrip s.data)))

/-! ## `Calculator.extract_and_calculate`: regex extraction

The three patterns `calculate\s+([0-9+\-*/().^ ]+)`,
`what\s+is\s+([0-9+\-*/().^ ]+)` and `compute\s+([0-9+\-*/().^ ]+)` are
applied with `re.search` to the lowercased text, in that order; the first
pattern that matches anywhere wins and its group is used.  The matchers below
implement the backtracking semantics of `\s+` followed by the greedy
character class (which contains the space character). -/

/-- The bracket class `[0-9+\-*/().^ ]`. -/
def isExprChar (c : Char) : Bool :=
  c.isDigit || c = '+' || c = '-' || c = '*' || c = '/' || c = '(' || c = ')' ||
    c = '.' || c = '^' || c = ' '

/-- After at least one `\s` has been consumed: greedily consume further `\s`,
backtracking into the character class (one or more characters) on failure. -/
def matchMoreWsThenClass : List Char → Option (List Char)
  | [] => none
  | c :: rest =>
    if isPySpace c then
      match matchMoreWsThenClass rest with
      | some g => some g
      | none => if isExprChar c then some ((c :: rest).takeWhile isExprChar) else none
    else
      if isExprChar c then some ((c :: rest).takeWhile isExprChar) else none

/-- `\s+([0-9+\-*/().^ ]+)` anchored at the head of the list. -/
def matchWsThenClass : List Char → Option (List Char)
  | [] => none
  | c :: rest => if isPySpace c then matchMoreWsThenClass rest else none

/-- Match a literal, returning the remainder. -/
def dropLit (lit : List Char) (l : List Char) : Option (List Char) :=
  if lit.isPrefixOf l then some (l.drop lit.length) else none

/-- `\s+` directly before a non-whitespace literal: the maximal whitespace
run (at least one character). -/
def dropWsPlus (l : List Char) : Option (List Char) :=
  match l.takeWhile isPySpace with
  | [] => none
  | w => some (l.drop w.length)

/-- `calculate\s+([0-9+\-*/().^ ]+)` anchored at the head. -/
def matchCalculate (l : List Char) : Option (List Char) := do
  let r ← dropLit "calculate".data l
  matchWsThenClass r

/-- `what\s+is\s+([0-9+\-*/().^ ]+)` anchored at the head. -/
def matchWhatIs (l : List Char) : Option (List Char) := do
  let r1 ← dropLit "what".data l
  let r2 ← dropWsPlus r1
  let r3 ← dropLit "is".data r2
  matchWsThenClass r3

/-- `compute\s+([0-9+\-*/().^ ]+)` anchored at the head. -/
def matchCompute (l : List Char) : Option (List Char) := do
  let r ← dropLit "compute".data l
  matchWsThenClass r

/-- `re.search`: try the anchored matcher at each position, leftmost first
(including the empty suffix at the end of the string). -/
def reSearch (m : List Char → Option (List Char)) : List Char → Option (List Char)
  | [] => m []
  | c :: rest =>
    match m (c :: rest) with
    | some g => some g
    | none => reSearch m rest

/-- `^` → `**` rewriting done on the extracted expression. -/
def caretToPow : List Char → List Char
  | [] => []
  | c :: rest => if c = '^' then '*' :: '*' :: caretToPow rest else c :: caretToPow rest

/-- The extraction part of `Calculator.extract_and_calculate`: lowercase the
text, try the three patterns in order, and return `match.group(1).strip()`. -/
def Calculator.extract_expression (text : String) : Option String :=
  let lt := text.data.map Char.toLower
  match reSearch matchCalculate lt with
  | some g => some (String.mk (pyStrip g))
  | none =>
    match reSearch matchWhatIs lt with
    | some g => some (String.mk (pyStrip g))
    | none =>
      match reSearch matchCompute lt with
      | some g => some (String.mk (pyStrip g))
      | none => none

/-- `Calculator.extract_and_calculate`: extract, rewrite `^` to `**`, and
calculate; `None` when no pattern matches. -/
def Calculator.extract_and_calculate (text : String) : Option CalcResult :=
  (Calculator.extract_expression text).map
    (fun e => Calculator.calculate (String.mk (caretToPow e.data)))

/-! ## `format_calculator_response` -/

/-- Fractional digits of `rem/den` (fuelled; stops at the fuel bound for
non-terminating decimal expansions — Python's shortest-roundtrip float repr
is outside the exact-fraction model and is not observed by any claim). -/
def fracDigitChars : Nat → Nat → Nat → List Char
  | 0, _, _ => []
  | _, 0, _ => []
  | fuel + 1, rem, den =>
      Char.ofNat (48 + rem * 10 / den) :: fracDigitChars fuel (rem * 10 % den) den

/-- `str(value)` for the modelled numbers: ints print without a decimal
point, floats with one (e.g. `25.0`, `2.5`). -/
def PyNum.pyStr (n : PyNum) : String :=
  if n.isFloat then
    (if n.val.num < 0 then "-" else "") ++ toString (n.val.num.natAbs / n.val.den.natAbs) ++
      "." ++
      (match fracDigitChars 30 (n.val.num.natAbs % n.val.den.natAbs) n.val.den.natAbs with
       | [] => "0"
       | fd => String.mk fd)
  else toString n.val.num

/-- `format_calculator_response(result, pirate_style)`. -/
def format_calculator_response (result : CalcResult) (pirate_style : Bool) : String :=
  if result.success then
    let value := match result.result with
      | some v => v.pyStr
      | none => "None"
    if pirate_style then "By me calculations, that be **" ++ value ++ "**, savvy?"
    else "The result is " ++ value
  else
    let err := match result.error with
      | some e => e.message
      | none => "None"
    if pirate_style then "Arr, there be a problem with yer sum: " ++ err
    else "Error: " ++ err

/-! ## `Memory` (src/memory.py) -/

/-- A conversation message; the timestamp string is supplied by the caller
(modelling `datetime.now().isoformat()`). -/
structure Message where
  role : String
  content : String
  timestamp : String
deriving DecidableEq, Repr

structure Memory where
  max_turns : Nat
  conversation_history : List Message
deriving DecidableEq, Repr

/-- `Memory(max_turns)` constructor: empty history. -/
def Memory.init (max_turns : Nat) : Memory := ⟨max_turns, []⟩

/-- Python's `l[-n:]` slice: for `n = 0` this is `l[0:]`, the whole list;
otherwise the last `n` elements. -/
def pyTakeLast (l : List α) (n : Nat) : List α :=
  if n = 0 then l else l.drop (l.length - n)

/-- `Memory.add_message`: append the timestamped message, then, if the
length exceeds `max_turns * 2`, keep `history[-max_messages:]`. -/
def Memory.add_message (m : Memory) (role content timestamp : String) : Memory :=
  let h := m.conversation_history ++ [⟨role, content, timestamp⟩]
  let max_messages := m.max_turns * 2
  if h.length > max_messages then ⟨m.max_turns, pyTakeLast h max_messages⟩
  else ⟨m.max_turns, h⟩

/-- Fold a list of `(role, content, timestamp)` triples into the memory. -/
def Memory.addAll (m : Memory) (msgs : List (String × String × String)) : Memory :=
  msgs.foldl (fun acc x => acc.add_message x.1 x.2.1 x.2.2) m

def Message.ofTriple (x : String × String × String) : Message := ⟨x.1, x.2.1, x.2.2⟩

/-- `Memory.get_turn_count`: `len(history) // 2`. -/
def Memory.get_turn_count (m : Memory) : Nat := m.conversation_history.length / 2

/-- `Memory.get_context_string`. -/
def Memory.get_context_string (m : Memory) : String :=
  if m.conversation_history.isEmpty then "No previous conversation."
  else
    String.intercalate "\n"
      (m.conversation_history.map
        (fun msg => (if msg.role = "user" then "User" else "Jack") ++ ": " ++ msg.content))

/-- `Memory.clear`. -/
def Memory.clear (m : Memory) : Memory := ⟨m.max_turns, []⟩

/-! ## `VectorStore` (src/vector_store.py)

The sentence-transformer embedding is an external capability; it is passed in
explicitly as `embed : String → Except String (List Int)` (a call into an
external library may raise, modelled as `Except.error`; vector components
are modelled over `Int` — the similarity ranking only needs an ordered
numeric type, and no claim depends on the embedding arithmetic).  ChromaDB's
in-memory collection is modelled as the stored `(document, embedding)` pairs;
its query returns the `n_results` nearest stored documents by L2 distance,
ties broken by insertion order. -/

structure VectorStore where
  documents : List String
  embeddings : List (List Int)
deriving Repr

def VectorStore.init : VectorStore := ⟨[], []⟩

/-- Squared L2 distance of two vectors (componentwise over the common
length). -/
def dist2 (a b : List Int) : Int :=
  ((a.zip b).map (fun p => (p.1 - p.2) * (p.1 - p.2))).foldl (· + ·) 0

/-- Stable insertion into a list sorted by `(distance, insertion index)`. -/
def insertRanked (x : Int × Nat × String) :
    List (Int × Nat × String) → List (Int × Nat × String)
  | [] => [x]
  | y :: ys =>
    if x.1 < y.1 ∨ (x.1 = y.1 ∧ x.2.1 < y.2.1) then x :: y :: ys
    else y :: insertRanked x ys

def rankAll (l : List (Int × Nat × String)) : List (Int × Nat × String) :=
  l.foldr insertRanked []

/-- `VectorStore.add_documents`: no-op on an empty list, otherwise embed each
document and append the pairs to the collection. -/
def VectorStore.add_documents (embed : String → Except String (List Int))
    (vs : VectorStore) (docs : List String) : Except String VectorStore :=
  if docs.isEmpty then .ok vs
  else do
    let embs ← docs.mapM embed
    .ok ⟨vs.documents ++ docs, vs.embeddings ++ embs⟩

/-- `VectorStore.query`: embed the query (an external call that may raise),
rank every stored document by distance to the query embedding, and return
the closest `n_results` document texts; on an empty collection the result is
the empty list. -/
def VectorStore.query (embed : String → Except String (List Int))
    (vs : VectorStore) (query_text : String) (n_results : Nat) :
    Except String (List String) := do
  let qe ← embed query_text
  let scored := (vs.embeddings.zip vs.documents).enum.map
    (fun p => (dist2 qe p.2.1, p.1, p.2.2))
  .ok (((rankAll scored).take n_results).map (fun t => t.2.2))

/-! ## `SparrowBot` (src/chatbot.py) -/

/-- Failure categories of the Gemini backend call
(`google.api_core.exceptions`). -/
inductive BackendErr where
  | unauthenticated
  | resourceExhausted
  | other (msg : String)
deriving DecidableEq, Repr

/-- The persona-styled apology strings returned from the `except` clauses of
`SparrowBot.chat`. -/
def SparrowBot.apologyAuth : String :=
  "Arr! The Google guards blocked me. Check yer API key, savvy?"

def SparrowBot.apologyQuota : String :=
  "Blimey! I've talked too much. Need a moment to catch me breath (Quota exceeded)."

def SparrowBot.apologyOther (msg : String) : String :=
  "Curse the black spot! Something went wrong: " ++ msg

def SparrowBot.apologyOf : BackendErr → String
  | .unauthenticated => SparrowBot.apologyAuth
  | .resourceExhausted => SparrowBot.apologyQuota
  | .other m => SparrowBot.apologyOther m

/-- The offline-mode templates interpolating a retrieved fact. -/
def SparrowBot.offlineTemplates : List String :=
  ["Arr, me compass points to this fact: {fact}",
   "By the powers! Did ye know? {fact}",
   "Savvy? {fact}",
   "The Black Pearl's logbook says: {fact}",
   "Interesting... remarkably like this: {fact}",
   "Aye, that reminds me of when {fact}"]

/-- The offline-mode generic fallback lines. -/
def SparrowBot.offlineFallbacks : List String :=
  ["Arr! I be Cap'n Jack Sparrow!",
   "Why is the rum always gone?",
   "Did no one come to save me just because they missed me?",
   "I'm Captain Jack Sparrow. Savvy?",
   "Take what you can, give nothing back!",
   "Me compass is pointing to... rum!"]

/-- `random.choice`: an element of the (nonempty) list, selected by an
externally supplied index. -/
def pyChoice (l : List String) (i : Nat) : String := l.getD (i % l.length) ""

/-- Replace each occurrence of `{fact}` in the character list by the fact
(the `template.format(fact=fact)` call; the templates contain exactly one
field each and the replacement is not rescanned). -/
def replaceFactChars : Nat → List Char → List Char → List Char
  | 0, _, _ => []
  | _, _, [] => []
  | fuel + 1, f, c :: rest =>
      if "{fact}".data.isPrefixOf (c :: rest) then
        f ++ replaceFactChars fuel f ((c :: rest).drop "{fact}".data.length)
      else c :: replaceFactChars fuel f rest

/-- `template.format(fact=fact)`. -/
def pyFormatFact (template fact : String) : String :=
  String.mk (replaceFactChars (template.data.length + 1) fact.data template.data)

instance {ε α : Type} [DecidableEq ε] [DecidableEq α] : DecidableEq (Except ε α)
  | .ok a, .ok b =>
      if h : a = b then .isTrue (by rw [h]) else .isFalse (by simp [h])
  | .ok _, .error _ => .isFalse (by simp)
  | .error _, .ok _ => .isFalse (by simp)
  | .error a, .error b =>
      if h : a = b then .isTrue (by rw [h]) else .isFalse (by simp [h])

/-- The state of a `SparrowBot`: the optional backend model (a function from
the prompt to generated text, which may raise one of the failure
categories), the vector store and the memory. -/
structure SparrowBot where
  model : Option (String → Except BackendErr String)
  vector_store : VectorStore
  memory : Memory

/-- External inputs of one `chat` turn: the embedding capability, the two
`datetime.now()` timestamps and the `random.choice` draw. -/
structure ChatEnv where
  embed : String → Except String (List Int)
  tsUser : String
  tsAsst : String
  choiceIdx : Nat

/-- Result of a `chat` call that returned (rather than raised): the returned
string, the memory afterwards, and how often the retrieval index and the
backend were invoked during the turn. -/
structure ChatOut where
  response : String
  memory : Memory
  retrievalQueries : Nat
  backendCalls : Nat
deriving DecidableEq, Repr

/-- The offline response before tagging: a template interpolating the first
retrieved fact, or a generic fallback line when no fact was found
(`random.choice` modelled by the environment's index). -/
def SparrowBot.offlineResponse (env : ChatEnv) (facts : List String) : String :=
  match facts with
  | fact :: _ => pyFormatFact (pyChoice SparrowBot.offlineTemplates env.choiceIdx) fact
  | [] => pyChoice SparrowBot.offlineFallbacks env.choiceIdx

/-- `SparrowBot._check_for_calculation`. -/
def SparrowBot.check_for_calculation (user_message : String) : Option String :=
  (Calculator.extract_and_calculate user_message).map
    (fun r => format_calculator_response r true)

/-- `SparrowBot._build_context_prompt`: retrieve 2 facts (numbered from 1),
add recent conversation when the turn count is positive, then the current
user message, joined by newlines. -/
def SparrowBot.build_context_prompt (embed : String → Except String (List Int))
    (vs : VectorStore) (mem : Memory) (user_message : String) :
    Except String String := do
  let relevant_facts ← VectorStore.query embed vs user_message 2
  let parts0 : List String :=
    if relevant_facts.isEmpty then []
    else "Relevant facts from your memory:" ::
      relevant_facts.enum.map (fun p => toString (p.1 + 1) ++ ". " ++ p.2)
  let parts1 :=
    if mem.get_turn_count > 0 then
      parts0 ++ ["\nRecent conversation:", mem.get_context_string]
    else parts0
  .ok (String.intercalate "\n" (parts1 ++ ["\nCurrent user message: " ++ user_message]))

/-- `SparrowBot.chat`.  The user message is recorded first; a calculator
match short-circuits; with no model configured the offline branch retrieves
one fact and answers from the templates or fallbacks, tagging the response;
otherwise the context prompt is built (outside the `try`) and the backend is
called inside `try/except`, whose handlers return apologies without touching
memory.  An exception raised by the embedding capability before the `try`
propagates (`Except.error`). -/
def SparrowBot.chat (env : ChatEnv) (bot : SparrowBot) (user_message : String) :
    Except String ChatOut :=
  let mem1 := bot.memory.add_message "user" user_message env.tsUser
  match SparrowBot.check_for_calculation user_message with
  | some calc_response =>
      .ok ⟨calc_response, mem1.add_message "assistant" calc_response env.tsAsst, 0, 0⟩
  | none =>
    match bot.model with
    | none => do
        let facts ← VectorStore.query env.embed bot.vector_store user_message 1
        let response := SparrowBot.offlineResponse env facts
        let tagged := response ++ " [Offline Mode]"
        .ok ⟨tagged, mem1.add_message "assistant" tagged env.tsAsst, 1, 0⟩
    | some model => do
        let context_prompt ←
          SparrowBot.build_context_prompt env.embed bot.vector_store mem1 user_message
        match model context_prompt with
        | .ok assistant_message =>
            .ok ⟨assistant_message,
                 mem1.add_message "assistant" assistant_message env.tsAsst, 1, 1⟩
        | .error e => .ok ⟨SparrowBot.apologyOf e, mem1, 1, 1⟩



/-! ## Specification-side definitions for the theorems below -/

/-- Well-formed fraction: positive denominator, lowest terms. -/
def Frac.Wf (f : Frac) : Prop :=
  0 < f.den ∧ Nat.Coprime f.num.natAbs f.den.natAbs

/-! ## Whitelist and literal well-formedness of expression trees -/

/-- A tree is whitelisted when it is built only from numbers, the five
supported binary operators and unary minus. -/
def PyExpr.whitelisted : PyExpr → Bool
  | .num _ => true
  | .binOp op l r => Calculator.binOpSupported op && l.whitelisted && r.whitelisted
  | .unaryOp op e => Calculator.unOpSupported op && e.whitelisted
  | _ => false

/-- Does the tree contain an identifier (`ast.Name`) on its arithmetic
spine? -/
def PyExpr.containsName : PyExpr → Bool
  | .name _ => true
  | .binOp _ l r => l.containsName || r.containsName
  | .unaryOp _ e => e.containsName
  | _ => false

/-- All numeric literals of the tree are well-formed fractions (true of
every tree the parser produces). -/
def PyExpr.WfLits : PyExpr → Prop
  | .num n => n.val.Wf
  | .binOp _ l r => l.WfLits ∧ r.WfLits
  | .unaryOp _ e => e.WfLits
  | _ => True

/-! ## The mathematical semantics of arithmetic trees -/

/-- Reference semantics: the exact rational value of a tree, defined for
trees built from numeric literals with `+ - * /`, integral-exponent `**`
and unary minus, with no division by zero.  This is the specification's
"mathematically correct value"; it is `none` outside that grammar. -/
def mathEval : PyExpr → Option ℚ
  | .num n => some n.val.toRat
  | .binOp .add l r => do
      let a ← mathEval l
      let b ← mathEval r
      pure (a + b)
  | .binOp .sub l r => do
      let a ← mathEval l
      let b ← mathEval r
      pure (a - b)
  | .binOp .mult l r => do
      let a ← mathEval l
      let b ← mathEval r
      pure (a * b)
  | .binOp .div l r => do
      let a ← mathEval l
      let b ← mathEval r
      if b = 0 then none else pure (a / b)
  | .binOp .pow l r => do
      let a ← mathEval l
      let b ← mathEval r
      if b.den = 1 then
        if a = 0 ∧ b.num < 0 then none else pure (a ^ b.num)
      else none
  | .unaryOp .usub e => do
      let a ← mathEval e
      pure (-a)
  | _ => none

/-! ## Every tree the parser produces has well-formed literals -/

/-- Numeric tokens carry well-formed fractions. -/
def Tok.Wf : Tok → Prop
  | .num q _ => q.Wf
  | _ => True

def TokListWf (ts : List Tok) : Prop := ∀ t ∈ ts, Tok.Wf t

/-- Result of one lexer step: any emitted numeric token is well-formed. -/
def LexAction.WfTok : LexAction → Prop
  | .tok t _ => t.Wf
  | _ => True

/-! ## Parser mode invariant: accumulators have well-formed literals -/

def PMode.Wf : PMode → Prop
  | .xorLoop acc => acc.WfLits
  | .arithLoop acc => acc.WfLits
  | .termLoop acc => acc.WfLits
  | .powTail base => base.WfLits
  | _ => True

/-! ## Theorems -/

theorem Frac.wf_ofInt (n : Int) : (Frac.ofInt n).Wf :=
  ⟨one_pos, Nat.coprime_one_right _⟩

theorem Frac.wf_neg {f : Frac} (h : f.Wf) : f.neg.Wf := by
  refine ⟨h.1, ?_⟩
  simpa [Frac.neg] using h.2

theorem Frac.toRat_neg (f : Frac) : f.neg.toRat = -f.toRat := by
  simp [Frac.neg, Frac.toRat, neg_div]

/-- The sign factor used by `Frac.norm` turns the denominator into its
absolute value. -/
theorem Frac.sign_mul_den (f : Frac) (h : f.den ≠ 0) :
    (if f.den < 0 then (-1 : Int) else 1) * f.den = (f.den.natAbs : Int) := by
  rw [Int.natCast_natAbs]
  rcases lt_or_gt_of_ne h with hlt | hgt
  · rw [if_pos hlt, abs_of_neg hlt]; ring
  · rw [if_neg (not_lt.mpr hgt.le), abs_of_pos hgt]; ring

theorem Frac.sign_mul_num_natAbs (f : Frac) :
    ((if f.den < 0 then (-1 : Int) else 1) * f.num).natAbs = f.num.natAbs := by
  split <;> simp

theorem Frac.norm_wf (f : Frac) (h : f.den ≠ 0) : f.norm.Wf := by
  unfold Frac.norm
  by_cases hz : f.num = 0
  · simp only [if_pos hz]
    exact ⟨one_pos, Nat.coprime_one_right _⟩
  · simp only [if_neg hz]
    set s : Int := if f.den < 0 then (-1 : Int) else 1 with hs
    set g : Nat := Nat.gcd f.num.natAbs f.den.natAbs with hg
    have hgpos : 0 < g := Nat.gcd_pos_of_pos_left _ (Int.natAbs_pos.mpr hz)
    have hgz : (g : Int) ≠ 0 := by exact_mod_cast hgpos.ne'
    have hdl : (g : Int) ∣ s * f.num :=
      Dvd.dvd.mul_left (Int.dvd_natAbs.mp (Int.natCast_dvd_natCast.mpr (Nat.gcd_dvd_left _ _))) s
    have hdr : (g : Int) ∣ s * f.den :=
      Dvd.dvd.mul_left (Int.dvd_natAbs.mp (Int.natCast_dvd_natCast.mpr (Nat.gcd_dvd_right _ _))) s
    refine ⟨?_, ?_⟩
    · show 0 < s * f.den / (g : Int)
      rw [Frac.sign_mul_den f h]
      rw [← Int.ofNat_ediv]
      have hdvd : g ∣ f.den.natAbs := Nat.gcd_dvd_right _ _
      have hq : 0 < f.den.natAbs / g :=
        Nat.div_pos (Nat.le_of_dvd (Int.natAbs_pos.mpr h) hdvd) hgpos
      exact_mod_cast hq
    · show Nat.Coprime (s * f.num / (g : Int)).natAbs (s * f.den / (g : Int)).natAbs
      have h1 : (s * f.num / (g : Int)).natAbs = f.num.natAbs / g := by
        rw [Int.natAbs_ediv _ _ hdl, Frac.sign_mul_num_natAbs]
        simp
      have h2 : (s * f.den / (g : Int)).natAbs = f.den.natAbs / g := by
        rw [Int.natAbs_ediv _ _ hdr, Frac.sign_mul_den f h]
        simp [Int.natAbs_abs]
      rw [h1, h2]
      exact Nat.coprime_div_gcd_div_gcd hgpos

/-- Exact-division cast: if `g` divides `a` then `(a / g : ℤ)` casts to
`a / g` in `ℚ`. -/
theorem intCast_ediv_of_dvd (a g : Int) (hg : g ≠ 0) (h : g ∣ a) :
    ((a / g : Int) : ℚ) = (a : ℚ) / (g : ℚ) := by
  obtain ⟨k, hk⟩ := h
  subst hk
  rw [Int.mul_ediv_cancel_left _ hg]
  have hgq : (g : ℚ) ≠ 0 := by exact_mod_cast hg
  push_cast
  field_simp

theorem Frac.toRat_norm (f : Frac) (h : f.den ≠ 0) : f.norm.toRat = f.toRat := by
  unfold Frac.norm
  by_cases hz : f.num = 0
  · simp [if_pos hz, Frac.toRat, hz]
  · simp only [if_neg hz]
    set s : Int := if f.den < 0 then (-1 : Int) else 1 with hs
    set g : Nat := Nat.gcd f.num.natAbs f.den.natAbs with hg
    have hgpos : 0 < g := Nat.gcd_pos_of_pos_left _ (Int.natAbs_pos.mpr hz)
    have hgz : (g : Int) ≠ 0 := by exact_mod_cast hgpos.ne'
    have hsz : s ≠ 0 := by rw [hs]; split <;> simp
    have hdl : (g : Int) ∣ s * f.num :=
      Dvd.dvd.mul_left (Int.dvd_natAbs.mp (Int.natCast_dvd_natCast.mpr (Nat.gcd_dvd_left _ _))) s
    have hdr : (g : Int) ∣ s * f.den :=
      Dvd.dvd.mul_left (Int.dvd_natAbs.mp (Int.natCast_dvd_natCast.mpr (Nat.gcd_dvd_right _ _))) s
    show Frac.toRat ⟨s * f.num / (g : Int), s * f.den / (g : Int)⟩ = f.toRat
    unfold Frac.toRat
    rw [intCast_ediv_of_dvd _ _ hgz hdl, intCast_ediv_of_dvd _ _ hgz hdr]
    have hsq : ((s : Int) : ℚ) ≠ 0 := by exact_mod_cast hsz
    have hdq : ((f.den : Int) : ℚ) ≠ 0 := by exact_mod_cast h
    have hgq : ((g : Nat) : ℚ) ≠ 0 := by exact_mod_cast hgpos.ne'
    push_cast
    rw [div_div_div_cancel_right₀]
    · exact mul_div_mul_left _ _ hsq
    · exact hgq

theorem Frac.wf_add {a b : Frac} (ha : 0 < a.den) (hb : 0 < b.den) : (a.add b).Wf :=
  Frac.norm_wf _ (by simp [mul_ne_zero ha.ne' hb.ne'])

theorem Frac.wf_sub {a b : Frac} (ha : 0 < a.den) (hb : 0 < b.den) : (a.sub b).Wf :=
  Frac.norm_wf _ (by simp [mul_ne_zero ha.ne' hb.ne'])

theorem Frac.wf_mul {a b : Frac} (ha : 0 < a.den) (hb : 0 < b.den) : (a.mul b).Wf :=
  Frac.norm_wf _ (by simp [mul_ne_zero ha.ne' hb.ne'])

theorem Frac.wf_div {a b : Frac} (ha : 0 < a.den) (hb : b.num ≠ 0) : (a.div b).Wf :=
  Frac.norm_wf _ (by simp [mul_ne_zero ha.ne' hb])

theorem Frac.wf_zpow {a : Frac} (e : Int) (ha : 0 < a.den) (hne : e < 0 → a.num ≠ 0) :
    (a.zpow e).Wf := by
  unfold Frac.zpow
  split
  · exact Frac.norm_wf _ (show a.den ^ e.toNat ≠ 0 from pow_ne_zero _ ha.ne')
  · exact Frac.norm_wf _ (show a.num ^ (-e).toNat ≠ 0 from pow_ne_zero _ (hne (by omega)))

theorem Frac.toRat_add {a b : Frac} (ha : a.den ≠ 0) (hb : b.den ≠ 0) :
    (a.add b).toRat = a.toRat + b.toRat := by
  unfold Frac.add
  rw [Frac.toRat_norm _ (by simp [mul_ne_zero ha hb])]
  unfold Frac.toRat
  have haq : ((a.den : Int) : ℚ) ≠ 0 := by exact_mod_cast ha
  have hbq : ((b.den : Int) : ℚ) ≠ 0 := by exact_mod_cast hb
  push_cast
  field_simp

theorem Frac.toRat_sub {a b : Frac} (ha : a.den ≠ 0) (hb : b.den ≠ 0) :
    (a.sub b).toRat = a.toRat - b.toRat := by
  unfold Frac.sub
  rw [Frac.toRat_norm _ (by simp [mul_ne_zero ha hb])]
  unfold Frac.toRat
  have haq : ((a.den : Int) : ℚ) ≠ 0 := by exact_mod_cast ha
  have hbq : ((b.den : Int) : ℚ) ≠ 0 := by exact_mod_cast hb
  push_cast
  field_simp
  ring

theorem Frac.toRat_mul {a b : Frac} (ha : a.den ≠ 0) (hb : b.den ≠ 0) :
    (a.mul b).toRat = a.toRat * b.toRat := by
  unfold Frac.mul
  rw [Frac.toRat_norm _ (by simp [mul_ne_zero ha hb])]
  unfold Frac.toRat
  push_cast
  rw [div_mul_div_comm]

theorem Frac.toRat_div {a b : Frac} (ha : a.den ≠ 0) (hb : b.den ≠ 0) (hbn : b.num ≠ 0) :
    (a.div b).toRat = a.toRat / b.toRat := by
  unfold Frac.div
  rw [Frac.toRat_norm _ (by simp [mul_ne_zero ha hbn])]
  unfold Frac.toRat
  have haq : ((a.den : Int) : ℚ) ≠ 0 := by exact_mod_cast ha
  have hbq : ((b.den : Int) : ℚ) ≠ 0 := by exact_mod_cast hb
  have hbnq : ((b.num : Int) : ℚ) ≠ 0 := by exact_mod_cast hbn
  push_cast
  field_simp

theorem Frac.toRat_zpow {a : Frac} (e : Int) (ha : a.den ≠ 0) (hne : e < 0 → a.num ≠ 0) :
    (a.zpow e).toRat = a.toRat ^ e := by
  unfold Frac.zpow
  by_cases hpos : 0 ≤ e
  · obtain ⟨k, rfl⟩ : ∃ k : Nat, e = (k : Int) := ⟨e.toNat, (Int.toNat_of_nonneg hpos).symm⟩
    rw [if_pos hpos]
    simp only [Int.toNat_natCast]
    rw [Frac.toRat_norm _ (show a.den ^ k ≠ 0 from pow_ne_zero _ ha)]
    unfold Frac.toRat
    rw [zpow_natCast]
    push_cast
    rw [div_pow]
  · have hneg : e < 0 := by omega
    have hnum : a.num ≠ 0 := hne hneg
    obtain ⟨k, rfl⟩ : ∃ k : Nat, e = -(k : Int) := ⟨(-e).toNat, by omega⟩
    rw [if_neg hpos]
    simp only [neg_neg, Int.toNat_natCast]
    rw [Frac.toRat_norm _ (show a.num ^ k ≠ 0 from pow_ne_zero _ hnum)]
    unfold Frac.toRat
    rw [zpow_neg, zpow_natCast, ← inv_pow, inv_div]
    push_cast
    rw [div_pow]

theorem Frac.toRat_eq_zero_iff {f : Frac} (h : f.den ≠ 0) : f.toRat = 0 ↔ f.num = 0 := by
  unfold Frac.toRat
  have hdq : ((f.den : Int) : ℚ) ≠ 0 := by exact_mod_cast h
  rw [div_eq_zero_iff]
  simp [hdq]

theorem Frac.toRat_of_den_one {f : Frac} (h : f.den = 1) : f.toRat = (f.num : ℚ) := by
  unfold Frac.toRat
  rw [h]
  simp

theorem Frac.den_eq_one_iff {f : Frac} (hf : f.Wf) : f.den = 1 ↔ f.toRat.den = 1 := by
  constructor
  · intro h
    rw [Frac.toRat_of_den_one h]
    exact Rat.den_intCast f.num
  · intro h
    have h2 : ((f.toRat.num : Int) : ℚ) = f.toRat := (Rat.den_eq_one_iff _).mp h
    have hdq : ((f.den : Int) : ℚ) ≠ 0 := by exact_mod_cast hf.1.ne'
    have h3 : (f.num : ℚ) = (f.toRat.num : ℚ) * (f.den : ℚ) := by
      rw [h2]
      unfold Frac.toRat
      field_simp
    have h4 : f.num = f.toRat.num * f.den := by exact_mod_cast h3
    have h5 : f.den ∣ f.num := Dvd.intro_left _ h4.symm
    have h6 : f.den.natAbs ∣ f.num.natAbs := Int.natAbs_dvd_natAbs.mpr h5
    have h8 : f.den.natAbs = 1 := Nat.Coprime.eq_one_of_dvd hf.2.symm h6
    have hd := hf.1
    omega

theorem Frac.num_toRat_of_den_one {f : Frac} (h : f.den = 1) : f.toRat.num = f.num := by
  rw [Frac.toRat_of_den_one h]
  exact Rat.num_intCast f.num

/-! ## `_safe_eval` succeeds only on whitelisted trees -/

theorem Calculator.safe_eval_ok_whitelisted :
    ∀ (t : PyExpr) (n : PyNum), Calculator.safe_eval t = .ok n → t.whitelisted = true
  | .num _, _, _ => rfl
  | .binOp op l r, n, h => by
      simp only [Calculator.safe_eval, bind, Except.bind] at h
      cases hl : Calculator.safe_eval l with
      | error e => rw [hl] at h; simp at h
      | ok a =>
        rw [hl] at h
        cases hr : Calculator.safe_eval r with
        | error e => rw [hr] at h; simp at h
        | ok b =>
          rw [hr] at h
          by_cases hop : Calculator.binOpSupported op = true
          · simp only [PyExpr.whitelisted, hop, Bool.true_and, Bool.and_eq_true]
            exact ⟨Calculator.safe_eval_ok_whitelisted l a hl,
                   Calculator.safe_eval_ok_whitelisted r b hr⟩
          · simp [hop] at h
  | .unaryOp op e, n, h => by
      simp only [Calculator.safe_eval, bind, Except.bind] at h
      cases he : Calculator.safe_eval e with
      | error e2 => rw [he] at h; simp at h
      | ok a =>
        rw [he] at h
        by_cases hop : Calculator.unOpSupported op = true
        · simp only [PyExpr.whitelisted, hop, Bool.true_and]
          exact Calculator.safe_eval_ok_whitelisted e a he
        · simp [hop] at h
  | .name _, _, h => by simp [Calculator.safe_eval] at h
  | .call _ _, _, h => by simp [Calculator.safe_eval] at h
  | .attribute _ _, _, h => by simp [Calculator.safe_eval] at h
  | .constOther _, _, h => by simp [Calculator.safe_eval] at h
  | .otherNode _, _, h => by simp [Calculator.safe_eval] at h

/-! ## `_safe_eval` computes the mathematical value -/

theorem Calculator.safe_eval_correct :
    ∀ (t : PyExpr) (q : ℚ), t.WfLits → mathEval t = some q →
      ∃ n : PyNum, Calculator.safe_eval t = .ok n ∧ n.val.Wf ∧ n.val.toRat = q
  | .num m, q, hw, h => by
      simp only [mathEval, Option.some.injEq] at h
      exact ⟨m, rfl, hw, h⟩
  | .binOp .add l r, q, hw, h => by
      simp only [mathEval, bind, Option.bind] at h
      cases hl : mathEval l with
      | none => rw [hl] at h; simp at h
      | some a =>
        rw [hl] at h
        cases hr : mathEval r with
        | none => rw [hr] at h; simp at h
        | some b =>
          rw [hr] at h
          simp only [pure, Option.some.injEq] at h
          obtain ⟨na, hna, hwa, hva⟩ := Calculator.safe_eval_correct l a hw.1 hl
          obtain ⟨nb, hnb, hwb, hvb⟩ := Calculator.safe_eval_correct r b hw.2 hr
          refine ⟨⟨na.val.add nb.val, na.isFloat || nb.isFloat⟩, ?_, ?_, ?_⟩
          · simp [Calculator.safe_eval, hna, hnb, bind, Except.bind,
                  Calculator.binOpSupported, Calculator.applyBinOp]
          · exact Frac.wf_add hwa.1 hwb.1
          · rw [show (⟨na.val.add nb.val, na.isFloat || nb.isFloat⟩ : PyNum).val = na.val.add nb.val from rfl,
                Frac.toRat_add hwa.1.ne' hwb.1.ne', hva, hvb, ← h]
  | .binOp .sub l r, q, hw, h => by
      simp only [mathEval, bind, Option.bind] at h
      cases hl : mathEval l with
      | none => rw [hl] at h; simp at h
      | some a =>
        rw [hl] at h
        cases hr : mathEval r with
        | none => rw [hr] at h; simp at h
        | some b =>
          rw [hr] at h
          simp only [pure, Option.some.injEq] at h
          obtain ⟨na, hna, hwa, hva⟩ := Calculator.safe_eval_correct l a hw.1 hl
          obtain ⟨nb, hnb, hwb, hvb⟩ := Calculator.safe_eval_correct r b hw.2 hr
          refine ⟨⟨na.val.sub nb.val, na.isFloat || nb.isFloat⟩, ?_, ?_, ?_⟩
          · simp [Calculator.safe_eval, hna, hnb, bind, Except.bind,
                  Calculator.binOpSupported, Calculator.applyBinOp]
          · exact Frac.wf_sub hwa.1 hwb.1
          · rw [show (⟨na.val.sub nb.val, na.isFloat || nb.isFloat⟩ : PyNum).val = na.val.sub nb.val from rfl,
                Frac.toRat_sub hwa.1.ne' hwb.1.ne', hva, hvb, ← h]
  | .binOp .mult l r, q, hw, h => by
      simp only [mathEval, bind, Option.bind] at h
      cases hl : mathEval l with
      | none => rw [hl] at h; simp at h
      | some a =>
        rw [hl] at h
        cases hr : mathEval r with
        | none => rw [hr] at h; simp at h
        | some b =>
          rw [hr] at h
          simp only [pure, Option.some.injEq] at h
          obtain ⟨na, hna, hwa, hva⟩ := Calculator.safe_eval_correct l a hw.1 hl
          obtain ⟨nb, hnb, hwb, hvb⟩ := Calculator.safe_eval_correct r b hw.2 hr
          refine ⟨⟨na.val.mul nb.val, na.isFloat || nb.isFloat⟩, ?_, ?_, ?_⟩
          · simp [Calculator.safe_eval, hna, hnb, bind, Except.bind,
                  Calculator.binOpSupported, Calculator.applyBinOp]
          · exact Frac.wf_mul hwa.1 hwb.1
          · rw [show (⟨na.val.mul nb.val, na.isFloat || nb.isFloat⟩ : PyNum).val = na.val.mul nb.val from rfl,
                Frac.toRat_mul hwa.1.ne' hwb.1.ne', hva, hvb, ← h]
  | .binOp .div l r, q, hw, h => by
      simp only [mathEval, bind, Option.bind] at h
      cases hl : mathEval l with
      | none => rw [hl] at h; simp at h
      | some a =>
        rw [hl] at h
        cases hr : mathEval r with
        | none => rw [hr] at h; simp at h
        | some b =>
          rw [hr] at h
          dsimp only at h
          by_cases hb0 : b = 0
          · rw [if_pos hb0] at h; simp at h
          · rw [if_neg hb0] at h
            simp only [pure, Option.some.injEq] at h
            obtain ⟨na, hna, hwa, hva⟩ := Calculator.safe_eval_correct l a hw.1 hl
            obtain ⟨nb, hnb, hwb, hvb⟩ := Calculator.safe_eval_correct r b hw.2 hr
            have hbn : nb.val.num ≠ 0 := by
              intro hz
              exact hb0 (hvb ▸ (Frac.toRat_eq_zero_iff hwb.1.ne').mpr hz)
            refine ⟨⟨na.val.div nb.val, true⟩, ?_, ?_, ?_⟩
            · simp [Calculator.safe_eval, hna, hnb, bind, Except.bind,
                    Calculator.binOpSupported, Calculator.applyBinOp, hbn]
            · exact Frac.wf_div hwa.1 hbn
            · rw [show (⟨na.val.div nb.val, true⟩ : PyNum).val = na.val.div nb.val from rfl,
                  Frac.toRat_div hwa.1.ne' hwb.1.ne' hbn, hva, hvb, ← h]
  | .binOp .pow l r, q, hw, h => by
      simp only [mathEval, bind, Option.bind] at h
      cases hl : mathEval l with
      | none => rw [hl] at h; simp at h
      | some a =>
        rw [hl] at h
        cases hr : mathEval r with
        | none => rw [hr] at h; simp at h
        | some b =>
          rw [hr] at h
          dsimp only at h
          by_cases hbden : b.den = 1
          · rw [if_pos hbden] at h
            by_cases hguard : a = 0 ∧ b.num < 0
            · rw [if_pos hguard] at h; simp at h
            · rw [if_neg hguard] at h
              simp only [pure, Option.some.injEq] at h
              obtain ⟨na, hna, hwa, hva⟩ := Calculator.safe_eval_correct l a hw.1 hl
              obtain ⟨nb, hnb, hwb, hvb⟩ := Calculator.safe_eval_correct r b hw.2 hr
              have hnbden : nb.val.den = 1 := (Frac.den_eq_one_iff hwb).mpr (hvb ▸ hbden)
              have hnbnum : nb.val.num = b.num := by
                rw [← hvb, Frac.num_toRat_of_den_one hnbden]
              have hcodeguard : ¬(na.val.num = 0 ∧ nb.val.num < 0) := by
                rintro ⟨hz, hneg⟩
                exact hguard ⟨hva ▸ (Frac.toRat_eq_zero_iff hwa.1.ne').mpr hz, hnbnum ▸ hneg⟩
              refine ⟨⟨na.val.zpow nb.val.num,
                       na.isFloat || nb.isFloat || decide (nb.val.num < 0)⟩, ?_, ?_, ?_⟩
              · simp [Calculator.safe_eval, hna, hnb, bind, Except.bind,
                      Calculator.binOpSupported, Calculator.applyBinOp, hnbden, hcodeguard]
              · exact Frac.wf_zpow _ hwa.1 (fun hneg => by
                  intro hz
                  exact hcodeguard ⟨hz, hneg⟩)
              · have hzp := Frac.toRat_zpow (a := na.val) nb.val.num hwa.1.ne'
                  (fun hneg => by
                    intro hz
                    exact hcodeguard ⟨hz, hneg⟩)
                rw [show (⟨na.val.zpow nb.val.num, na.isFloat || nb.isFloat || decide (nb.val.num < 0)⟩ : PyNum).val
                      = na.val.zpow nb.val.num from rfl, hzp, hva, hnbnum, ← h]
          · rw [if_neg hbden] at h; simp at h
  | .binOp .bitXor l r, q, hw, h => by simp [mathEval] at h
  | .binOp .floorDiv l r, q, hw, h => by simp [mathEval] at h
  | .binOp .modOp l r, q, hw, h => by simp [mathEval] at h
  | .binOp .bitAnd l r, q, hw, h => by simp [mathEval] at h
  | .binOp .bitOr l r, q, hw, h => by simp [mathEval] at h
  | .binOp .matMult l r, q, hw, h => by simp [mathEval] at h
  | .unaryOp .usub e, q, hw, h => by
      simp only [mathEval, bind, Option.bind] at h
      cases he : mathEval e with
      | none => rw [he] at h; simp at h
      | some a =>
        rw [he] at h
        simp only [pure, Option.some.injEq] at h
        obtain ⟨na, hna, hwa, hva⟩ := Calculator.safe_eval_correct e a hw he
        refine ⟨⟨na.val.neg, na.isFloat⟩, ?_, ?_, ?_⟩
        · simp [Calculator.safe_eval, hna, bind, Except.bind,
                Calculator.unOpSupported, Calculator.applyUnOp]
        · exact Frac.wf_neg hwa
        · rw [show (⟨na.val.neg, na.isFloat⟩ : PyNum).val = na.val.neg from rfl,
              Frac.toRat_neg, hva, ← h]
  | .unaryOp .uadd e, q, hw, h => by simp [mathEval] at h
  | .unaryOp .notOp e, q, hw, h => by simp [mathEval] at h
  | .unaryOp .invert e, q, hw, h => by simp [mathEval] at h
  | .name _, q, hw, h => by simp [mathEval] at h
  | .call _ _, q, hw, h => by simp [mathEval] at h
  | .attribute _ _, q, hw, h => by simp [mathEval] at h
  | .constOther _, q, hw, h => by simp [mathEval] at h
  | .otherNode _, q, hw, h => by simp [mathEval] at h

theorem ratOfDigits_wf (ds fs : List Char) : (ratOfDigits ds fs).Wf :=
  Frac.norm_wf _ (show (10 : Int) ^ fs.length ≠ 0 from pow_ne_zero _ (by norm_num))

theorem lex_cons_aux {t : Tok} {o : Option (List Tok)} {ts : List Tok}
    (h : o.map (t :: ·) = some ts) (ht : t.Wf) (ho : ∀ tl, o = some tl → TokListWf tl) :
    TokListWf ts := by
  obtain ⟨tl, hrec, hts⟩ := Option.map_eq_some'.mp h
  subst hts
  intro x hx
  rcases List.mem_cons.mp hx with hx | hx
  · subst hx; exact ht
  · exact ho tl hrec x hx

theorem lexNum_wf (c : Char) (cs : List Char) : (lexNum c cs).WfTok := by
  rw [lexNum]
  split
  · exact ratOfDigits_wf _ _
  · exact Frac.wf_ofInt _

theorem lexDotNum_wf (cs : List Char) : (lexDotNum cs).WfTok := by
  rw [lexDotNum]
  split
  · exact ratOfDigits_wf _ _
  · trivial

theorem lexPunct_wf (c : Char) (cs : List Char) : (lexPunct c cs).WfTok := by
  rw [lexPunct]
  repeat' split
  all_goals trivial

theorem lexStep_wf (c : Char) (cs : List Char) : (lexStep c cs).WfTok := by
  rw [lexStep]
  repeat' split
  · trivial
  · exact lexNum_wf c cs
  · exact lexDotNum_wf cs
  · show (lexIdent c cs).WfTok
    rw [lexIdent]
    trivial
  · exact lexPunct_wf c cs

theorem lexTokens_wf : ∀ (fuel : Nat) (cs : List Char) (ts : List Tok),
    lexTokens fuel cs = some ts → TokListWf ts
  | 0, cs, ts, h => by
      rw [lexTokens] at h
      exact Option.noConfusion h
  | _ + 1, [], ts, h => by
      rw [lexTokens] at h
      all_goals try (intro hc; omega)
      cases h
      intro x hx
      simp at hx
  | fuel + 1, c :: cs, ts, h => by
      have h2 : (match lexStep c cs with
                 | .skip rest => lexTokens fuel rest
                 | .tok t rest => (lexTokens fuel rest).map (t :: ·)
                 | .err => none) = some ts := h
      cases hstep : lexStep c cs with
      | skip rest =>
          rw [hstep] at h2
          exact lexTokens_wf fuel rest ts h2
      | tok t rest =>
          rw [hstep] at h2
          have hwf := lexStep_wf c cs
          rw [hstep] at hwf
          exact lex_cons_aux h2 hwf (fun tl htl => lexTokens_wf fuel rest tl htl)
      | err =>
          rw [hstep] at h2
          exact Option.noConfusion h2

theorem tokListWf_tail {t : Tok} {ts : List Tok} (h : TokListWf (t :: ts)) : TokListWf ts :=
  fun x hx => h x (List.mem_cons_of_mem _ hx)

theorem parseStep_wf : ∀ (fuel : Nat) (m : PMode) (ts : List Tok) (e : PyExpr) (ts1 : List Tok),
    PMode.Wf m → TokListWf ts → parseStep fuel m ts = some (e, ts1) →
    e.WfLits ∧ TokListWf ts1 := by
  intro fuel
  induction fuel with
  | zero =>
    intro m ts e ts1 hm hts h
    rw [parseStep.eq_def] at h
    exact Option.noConfusion h
  | succ fuel ih =>
    intro m ts e ts1 hm hts h
    rw [parseStep.eq_def] at h
    cases m with
    | expr =>
      simp only [bind, Option.bind] at h
      cases h1 : parseStep fuel .arith ts with
      | none => rw [h1] at h; simp at h
      | some p =>
        obtain ⟨a, ts2⟩ := p
        rw [h1] at h
        dsimp only at h
        obtain ⟨ha, hts2⟩ := ih .arith ts a ts2 trivial hts h1
        exact ih (.xorLoop a) ts2 e ts1 ha hts2 h
    | arith =>
      simp only [bind, Option.bind] at h
      cases h1 : parseStep fuel .term ts with
      | none => rw [h1] at h; simp at h
      | some p =>
        obtain ⟨a, ts2⟩ := p
        rw [h1] at h
        dsimp only at h
        obtain ⟨ha, hts2⟩ := ih .term ts a ts2 trivial hts h1
        exact ih (.arithLoop a) ts2 e ts1 ha hts2 h
    | term =>
      simp only [bind, Option.bind] at h
      cases h1 : parseStep fuel .factor ts with
      | none => rw [h1] at h; simp at h
      | some p =>
        obtain ⟨a, ts2⟩ := p
        rw [h1] at h
        dsimp only at h
        obtain ⟨ha, hts2⟩ := ih .factor ts a ts2 trivial hts h1
        exact ih (.termLoop a) ts2 e ts1 ha hts2 h
    | power =>
      simp only [bind, Option.bind] at h
      cases h1 : parseStep fuel .atom ts with
      | none => rw [h1] at h; simp at h
      | some p =>
        obtain ⟨a, ts2⟩ := p
        rw [h1] at h
        dsimp only at h
        obtain ⟨ha, hts2⟩ := ih .atom ts a ts2 trivial hts h1
        exact ih (.powTail a) ts2 e ts1 ha hts2 h
    | xorLoop acc =>
      cases ts with
      | nil => cases h; exact ⟨hm, hts⟩
      | cons t rest =>
        cases t
        case caret =>
          simp only [bind, Option.bind] at h
          cases h1 : parseStep fuel .arith rest with
          | none => rw [h1] at h; simp at h
          | some p =>
            obtain ⟨b, ts2⟩ := p
            rw [h1] at h
            dsimp only at h
            obtain ⟨hb, hts2⟩ := ih .arith rest b ts2 trivial (tokListWf_tail hts) h1
            exact ih (.xorLoop (.binOp .bitXor acc b)) ts2 e ts1 ⟨hm, hb⟩ hts2 h
        all_goals (cases h; exact ⟨hm, hts⟩)
    | arithLoop acc =>
      cases ts with
      | nil => cases h; exact ⟨hm, hts⟩
      | cons t rest =>
        cases t
        case plus =>
          simp only [bind, Option.bind] at h
          cases h1 : parseStep fuel .term rest with
          | none => rw [h1] at h; simp at h
          | some p =>
            obtain ⟨b, ts2⟩ := p
            rw [h1] at h
            dsimp only at h
            obtain ⟨hb, hts2⟩ := ih .term rest b ts2 trivial (tokListWf_tail hts) h1
            exact ih (.arithLoop (.binOp .add acc b)) ts2 e ts1 ⟨hm, hb⟩ hts2 h
        case minus =>
          simp only [bind, Option.bind] at h
          cases h1 : parseStep fuel .term rest with
          | none => rw [h1] at h; simp at h
          | some p =>
            obtain ⟨b, ts2⟩ := p
            rw [h1] at h
            dsimp only at h
            obtain ⟨hb, hts2⟩ := ih .term rest b ts2 trivial (tokListWf_tail hts) h1
            exact ih (.arithLoop (.binOp .sub acc b)) ts2 e ts1 ⟨hm, hb⟩ hts2 h
        all_goals (cases h; exact ⟨hm, hts⟩)
    | termLoop acc =>
      cases ts with
      | nil => cases h; exact ⟨hm, hts⟩
      | cons t rest =>
        cases t
        case star =>
          simp only [bind, Option.bind] at h
          cases h1 : parseStep fuel .factor rest with
          | none => rw [h1] at h; simp at h
          | some p =>
            obtain ⟨b, ts2⟩ := p
            rw [h1] at h
            dsimp only at h
            obtain ⟨hb, hts2⟩ := ih .factor rest b ts2 trivial (tokListWf_tail hts) h1
            exact ih (.termLoop (.binOp .mult acc b)) ts2 e ts1 ⟨hm, hb⟩ hts2 h
        case slash =>
          simp only [bind, Option.bind] at h
          cases h1 : parseStep fuel .factor rest with
          | none => rw [h1] at h; simp at h
          | some p =>
            obtain ⟨b, ts2⟩ := p
            rw [h1] at h
            dsimp only at h
            obtain ⟨hb, hts2⟩ := ih .factor rest b ts2 trivial (tokListWf_tail hts) h1
            exact ih (.termLoop (.binOp .div acc b)) ts2 e ts1 ⟨hm, hb⟩ hts2 h
        case dslash =>
          simp only [bind, Option.bind] at h
          cases h1 : parseStep fuel .factor rest with
          | none => rw [h1] at h; simp at h
          | some p =>
            obtain ⟨b, ts2⟩ := p
            rw [h1] at h
            dsimp only at h
            obtain ⟨hb, hts2⟩ := ih .factor rest b ts2 trivial (tokListWf_tail hts) h1
            exact ih (.termLoop (.binOp .floorDiv acc b)) ts2 e ts1 ⟨hm, hb⟩ hts2 h
        all_goals (cases h; exact ⟨hm, hts⟩)
    | factor =>
      cases ts with
      | nil => exact ih .power [] e ts1 trivial hts h
      | cons t rest =>
        cases t
        case plus =>
          simp only [bind, Option.bind] at h
          cases h1 : parseStep fuel .factor rest with
          | none => rw [h1] at h; simp at h
          | some p =>
            obtain ⟨a, ts2⟩ := p
            rw [h1] at h
            dsimp only at h
            obtain ⟨ha, hts2⟩ := ih .factor rest a ts2 trivial (tokListWf_tail hts) h1
            cases h
            exact ⟨ha, hts2⟩
        case minus =>
          simp only [bind, Option.bind] at h
          cases h1 : parseStep fuel .factor rest with
          | none => rw [h1] at h; simp at h
          | some p =>
            obtain ⟨a, ts2⟩ := p
            rw [h1] at h
            dsimp only at h
            obtain ⟨ha, hts2⟩ := ih .factor rest a ts2 trivial (tokListWf_tail hts) h1
            cases h
            exact ⟨ha, hts2⟩
        all_goals exact ih .power _ e ts1 trivial hts h
    | powTail base =>
      cases ts with
      | nil => cases h; exact ⟨hm, hts⟩
      | cons t rest =>
        cases t
        case dstar =>
          simp only [bind, Option.bind] at h
          cases h1 : parseStep fuel .factor rest with
          | none => rw [h1] at h; simp at h
          | some p =>
            obtain ⟨b, ts2⟩ := p
            rw [h1] at h
            dsimp only at h
            obtain ⟨hb, hts2⟩ := ih .factor rest b ts2 trivial (tokListWf_tail hts) h1
            cases h
            exact ⟨⟨hm, hb⟩, hts2⟩
        all_goals (cases h; exact ⟨hm, hts⟩)
    | atom =>
      cases ts with
      | nil => exact Option.noConfusion h
      | cons t rest =>
        cases t
        case num q f =>
          cases h
          exact ⟨hts _ (List.mem_cons_self _ _), tokListWf_tail hts⟩
        case ident s =>
          cases h
          exact ⟨trivial, tokListWf_tail hts⟩
        case lparen =>
          simp only [bind, Option.bind] at h
          cases h1 : parseStep fuel .expr rest with
          | none => rw [h1] at h; simp at h
          | some p =>
            obtain ⟨a, ts2⟩ := p
            rw [h1] at h
            dsimp only at h
            obtain ⟨ha, hts2⟩ := ih .expr rest a ts2 trivial (tokListWf_tail hts) h1
            cases ts2 with
            | nil => exact Option.noConfusion h
            | cons t2 ts3 =>
              cases t2
              case rparen =>
                cases h
                exact ⟨ha, tokListWf_tail hts2⟩
              all_goals exact Option.noConfusion h
        all_goals exact Option.noConfusion h

theorem pyParse_wfLits (s : String) (t : PyExpr) (h : pyParse s = some t) : t.WfLits := by
  unfold pyParse at h
  simp only [bind, Option.bind] at h
  cases hlex : lexTokens (s.data.length + 1) s.data with
  | none => rw [hlex] at h; simp at h
  | some ts =>
    rw [hlex] at h
    dsimp only at h
    cases hp : parseStep (20 * ts.length + 20) .expr ts with
    | none => rw [hp] at h; simp at h
    | some p =>
      obtain ⟨e, ts1⟩ := p
      rw [hp] at h
      cases ts1 with
      | nil =>
        cases h
        exact (parseStep_wf _ .expr ts t [] trivial (lexTokens_wf _ _ _ hlex) hp).1
      | cons a b => simp at h

/-! ## Claim-level theorems for the expression evaluator -/

/-- C1 (amended): `_safe_eval` succeeds only on whitelisted trees, and any
tree containing a non-whitelisted construct yields a failure result with no
value and some error (the error is the division-by-zero message when a
division by zero is raised before the offending node is reached, and the
`Invalid expression` message otherwise). -/
theorem calculator_rejects_non_whitelisted :
    (∀ (t : PyExpr) (n : PyNum), Calculator.safe_eval t = .ok n → t.whitelisted = true) ∧
    (∀ t : PyExpr, t.whitelisted = false →
      (Calculator.calcOfParse (some t)).success = false ∧
      (Calculator.calcOfParse (some t)).result = none ∧
      (Calculator.calcOfParse (some t)).error.isSome = true) := by
  refine ⟨Calculator.safe_eval_ok_whitelisted, ?_⟩
  intro t hwl
  cases he : Calculator.safe_eval t with
  | ok n =>
    rw [Calculator.safe_eval_ok_whitelisted t n he] at hwl
    exact Bool.noConfusion hwl
  | error err =>
    unfold Calculator.calcOfParse
    dsimp only
    rw [he]
    cases err <;> simp

theorem calculator_rejects_non_whitelisted_witness :
    (Calculator.calcOfParse (some (PyExpr.name "x"))).success = false ∧
    (PyExpr.name "x").whitelisted = false :=
  ⟨(calculator_rejects_non_whitelisted.2 (PyExpr.name "x") (by decide)).1, by decide⟩

/-- C1 counterexample: `calculate("1 / 0 + x")` contains the identifier `x`,
is rejected, but its error is the division-by-zero message, not the
`Invalid expression` one. -/
theorem calculator_invalid_error_counterexample :
    Calculator.calculate "1 / 0 + x" = ⟨false, none, some CalcError.divByZero⟩ ∧
    (pyParse (String.mk (pyStrip "1 / 0 + x".data))).any PyExpr.containsName = true ∧
    (Calculator.calculate "1 / 0 + x").hasInvalidExprError = false := by
  refine ⟨by decide, by decide, by decide⟩

/-- C2 (amended): for every string accepted by `ast.parse` whose tree has a
mathematical value (numeric literals, `+ - * /`, integral `**`, unary minus,
parentheses, no division by zero), `calculate` succeeds with exactly that
value.  (The caret `^` is Python's XOR and is rejected by `calculate`; it
reaches the power operator only through extraction's rewriting.) -/
theorem calculate_correct (s : String) (t : PyExpr) (q : ℚ)
    (hp : pyParse (String.mk (pyStrip s.data)) = some t)
    (hm : mathEval t = some q) :
    ∃ n : PyNum, Calculator.calculate s = ⟨true, some n, none⟩ ∧ n.val.toRat = q := by
  obtain ⟨n, he, _, hv⟩ :=
    Calculator.safe_eval_correct t q (pyParse_wfLits _ t hp) hm
  refine ⟨n, ?_, hv⟩
  unfold Calculator.calculate Calculator.calcOfParse
  rw [hp]
  dsimp only
  rw [he]

theorem calculate_correct_witness :
    Calculator.calculate "(3 + 5) * 2" = ⟨true, some ⟨⟨16, 1⟩, false⟩, none⟩ ∧
    Calculator.calculate "10 - 5 * 2" = ⟨true, some ⟨⟨0, 1⟩, false⟩, none⟩ ∧
    Calculator.calculate "2 ** 3" = ⟨true, some ⟨⟨8, 1⟩, false⟩, none⟩ := by
  obtain ⟨n, hc, hv⟩ := calculate_correct "(3 + 5) * 2"
    (.binOp .mult (.binOp .add (.num ⟨⟨3, 1⟩, false⟩) (.num ⟨⟨5, 1⟩, false⟩))
      (.num ⟨⟨2, 1⟩, false⟩)) 16 (by rfl)
    (by simp [mathEval, Frac.toRat]; norm_num)
  exact ⟨by decide, by decide, by decide⟩

/-- C2 counterexample: the spec's example `evaluate("2 ^ 3") = 8` fails on
the code: `^` parses as `ast.BitXor`, which is not in `OPERATORS`, so
`calculate` returns a failure. -/
theorem calculate_caret_counterexample :
    Calculator.calculate "2 ^ 3" =
      ⟨false, none, some (CalcError.invalidExpr "Unsupported operation: BitXor")⟩ := by
  decide

/-- C3: `evaluate("10 / 0")` returns the structured division-by-zero
failure; every `ZeroDivisionError` raised by `_safe_eval` is converted to
that structured result (never an escaping exception); `operator.truediv`
raises exactly on a zero divisor and produces a float otherwise; and
`calculate` always returns a structured success or failure dict. -/
theorem calculate_div_by_zero :
    Calculator.calculate "10 / 0" = ⟨false, none, some CalcError.divByZero⟩ ∧
    (∀ t : PyExpr, Calculator.safe_eval t = .error .zeroDivision →
      Calculator.calcOfParse (some t) = ⟨false, none, some CalcError.divByZero⟩) ∧
    (∀ a b : PyNum, b.val.num = 0 →
      Calculator.applyBinOp .div a b = .error .zeroDivision) ∧
    (∀ a b : PyNum, b.val.num ≠ 0 →
      Calculator.applyBinOp .div a b = .ok ⟨a.val.div b.val, true⟩) ∧
    (∀ s : String, (∃ n, Calculator.calculate s = ⟨true, some n, none⟩) ∨
      (∃ err, Calculator.calculate s = ⟨false, none, some err⟩)) := by
  refine ⟨by decide, ?_, ?_, ?_, ?_⟩
  · intro t he
    unfold Calculator.calcOfParse
    dsimp only
    rw [he]
  · intro a b hb
    simp [Calculator.applyBinOp, hb]
  · intro a b hb
    simp [Calculator.applyBinOp, hb]
  · intro s
    unfold Calculator.calculate Calculator.calcOfParse
    cases hp : pyParse (String.mk (pyStrip s.data)) with
    | none => exact .inr ⟨.invalidExpr "SyntaxError", rfl⟩
    | some t =>
      dsimp only
      cases he : Calculator.safe_eval t with
      | ok v => exact .inl ⟨v, rfl⟩
      | error err =>
        cases err with
        | zeroDivision => exact .inr ⟨.divByZero, rfl⟩
        | valueError m => exact .inr ⟨.invalidExpr m, rfl⟩
        | floatPowOutsideModel =>
            exact .inr ⟨.invalidExpr "float pow outside rational model", rfl⟩

theorem calculate_div_by_zero_witness :
    Calculator.applyBinOp .div ⟨⟨10, 1⟩, false⟩ ⟨⟨4, 1⟩, false⟩ =
      .ok ⟨⟨5, 2⟩, true⟩ ∧
    Calculator.applyBinOp .div ⟨⟨10, 1⟩, false⟩ ⟨⟨0, 1⟩, false⟩ =
      .error .zeroDivision := by
  constructor
  · rw [calculate_div_by_zero.2.2.2.1 ⟨⟨10, 1⟩, false⟩ ⟨⟨4, 1⟩, false⟩ (by decide)]
    decide
  · exact calculate_div_by_zero.2.2.1 ⟨⟨10, 1⟩, false⟩ ⟨⟨0, 1⟩, false⟩ (by decide)

/-! ## C4: extraction characterization -/

theorem reSearch_eq_none_iff (m : List Char → Option (List Char)) (l : List Char) :
    reSearch m l = none ↔ ∀ i, m (l.drop i) = none := by
  induction l with
  | nil =>
    rw [reSearch]
    constructor
    · intro h i; simpa using h
    · intro h; simpa using h 0
  | cons c rest ih =>
    rw [reSearch]
    cases hm : m (c :: rest) with
    | some g =>
      constructor
      · intro h; exact Option.noConfusion h
      · intro h
        have h0 := h 0
        simp only [List.drop_zero] at h0
        rw [h0] at hm
        exact Option.noConfusion hm
    | none =>
      rw [ih]
      constructor
      · intro h i
        cases i with
        | zero => simpa using hm
        | succ j => simpa using h j
      · intro h j
        have hj := h (j + 1)
        simpa using hj

theorem extract_expression_eq_none_iff (text : String) :
    Calculator.extract_expression text = none ↔
      reSearch matchCalculate (text.data.map Char.toLower) = none ∧
      reSearch matchWhatIs (text.data.map Char.toLower) = none ∧
      reSearch matchCompute (text.data.map Char.toLower) = none := by
  unfold Calculator.extract_expression
  cases h1 : reSearch matchCalculate (text.data.map Char.toLower) <;>
    cases h2 : reSearch matchWhatIs (text.data.map Char.toLower) <;>
      cases h3 : reSearch matchCompute (text.data.map Char.toLower) <;>
        simp [h1, h2, h3]

/-- C4: on the spec's example the extracted expression is `"25 * 4"` and
evaluation yields 100; extraction returns `None` exactly when no pattern
matches at any position of the lowercased text (patterns tried in source
order, leftmost position first); and on a match the caret is rewritten to
`**` before `calculate` is called on the stripped group. -/
theorem extract_and_calculate_characterization :
    Calculator.extract_expression "Can you calculate 25 * 4 for me?" = some "25 * 4" ∧
    Calculator.extract_and_calculate "Can you calculate 25 * 4 for me?" =
      some ⟨true, some ⟨⟨100, 1⟩, false⟩, none⟩ ∧
    (∀ text : String, Calculator.extract_and_calculate text = none ↔
      ((∀ i, matchCalculate ((text.data.map Char.toLower).drop i) = none) ∧
       (∀ i, matchWhatIs ((text.data.map Char.toLower).drop i) = none) ∧
       (∀ i, matchCompute ((text.data.map Char.toLower).drop i) = none))) ∧
    (∀ (text e : String), Calculator.extract_expression text = some e →
      Calculator.extract_and_calculate text =
        some (Calculator.calculate (String.mk (caretToPow e.data)))) := by
  refine ⟨by decide, by decide, ?_, ?_⟩
  · intro text
    unfold Calculator.extract_and_calculate
    rw [Option.map_eq_none', extract_expression_eq_none_iff,
        reSearch_eq_none_iff, reSearch_eq_none_iff, reSearch_eq_none_iff]
  · intro text e he
    unfold Calculator.extract_and_calculate
    rw [he]
    rfl

theorem extract_and_calculate_witness :
    Calculator.extract_and_calculate "Can you calculate 25 * 4 for me?" =
      some (Calculator.calculate "25 * 4") ∧
    Calculator.calculate "25 * 4" = ⟨true, some ⟨⟨100, 1⟩, false⟩, none⟩ := by
  have h := extract_and_calculate_characterization.2.2.2
    "Can you calculate 25 * 4 for me?" "25 * 4" (by decide)
  exact ⟨h, by decide⟩

/-! ## Memory: sliding-window characterization -/

theorem pyTakeLast_length (l : List α) (n : Nat) :
    (pyTakeLast l n).length = if n = 0 then l.length else min l.length n := by
  unfold pyTakeLast
  split
  · rfl
  · simp [List.length_drop]
    omega

theorem pyTakeLast_append (l l2 : List α) (n : Nat) :
    pyTakeLast (pyTakeLast l n ++ l2) n = pyTakeLast (l ++ l2) n := by
  unfold pyTakeLast
  by_cases hn : n = 0
  · simp [hn]
  · simp only [if_neg hn]
    rw [List.drop_append_eq_append_drop, List.drop_append_eq_append_drop]
    have hlen : (l.drop (l.length - n)).length = min l.length n := by
      simp [List.length_drop]; omega
    rw [List.drop_drop]
    congr 1
    · congr 1
      simp [List.length_append, hlen]
      omega
    · congr 1
      simp [List.length_append, hlen]
      omega

/-- The history after `add_message` is always the Python slice
`(history + [message])[-2*max_turns:]`. -/
theorem Memory.add_message_history (m : Memory) (role content ts : String) :
    (m.add_message role content ts).conversation_history =
      pyTakeLast (m.conversation_history ++ [⟨role, content, ts⟩]) (m.max_turns * 2) := by
  unfold Memory.add_message
  dsimp only
  split
  · rfl
  · unfold pyTakeLast
    split
    · rfl
    · rename_i hlen hz
      have : (m.conversation_history ++ [(⟨role, content, ts⟩ : Message)]).length -
          m.max_turns * 2 = 0 := by omega
      rw [this, List.drop_zero]

theorem Memory.add_message_max_turns (m : Memory) (role content ts : String) :
    (m.add_message role content ts).max_turns = m.max_turns := by
  unfold Memory.add_message
  dsimp only
  split <;> rfl

theorem Memory.addAll_history :
    ∀ (msgs : List (String × String × String)) (m : Memory),
      m.conversation_history = pyTakeLast m.conversation_history (m.max_turns * 2) →
      (m.addAll msgs).conversation_history =
        pyTakeLast (m.conversation_history ++ msgs.map Message.ofTriple) (m.max_turns * 2) ∧
      (m.addAll msgs).max_turns = m.max_turns
  | [], m, hinv => by
      unfold Memory.addAll
      simpa using hinv
  | x :: xs, m, hinv => by
      unfold Memory.addAll
      simp only [List.foldl_cons]
      have hstep := Memory.add_message_history m x.1 x.2.1 x.2.2
      have hmax := Memory.add_message_max_turns m x.1 x.2.1 x.2.2
      have hinv2 : (m.add_message x.1 x.2.1 x.2.2).conversation_history =
          pyTakeLast (m.add_message x.1 x.2.1 x.2.2).conversation_history
            ((m.add_message x.1 x.2.1 x.2.2).max_turns * 2) := by
        rw [hstep, hmax]
        rw [show pyTakeLast (pyTakeLast (m.conversation_history ++ [⟨x.1, x.2.1, x.2.2⟩])
              (m.max_turns * 2)) (m.max_turns * 2) =
            pyTakeLast (pyTakeLast (m.conversation_history ++ [⟨x.1, x.2.1, x.2.2⟩])
              (m.max_turns * 2) ++ []) (m.max_turns * 2) by rw [List.append_nil]]
        rw [pyTakeLast_append, List.append_nil]
      obtain ⟨hh, hm⟩ := Memory.addAll_history xs (m.add_message x.1 x.2.1 x.2.2) hinv2
      constructor
      · show (Memory.addAll (m.add_message x.1 x.2.1 x.2.2) xs).conversation_history = _
        rw [hh, hstep, hmax, pyTakeLast_append, List.append_assoc]
        rfl
      · show (Memory.addAll (m.add_message x.1 x.2.1 x.2.2) xs).max_turns = _
        rw [hm, hmax]

/-- C5 (amended): for `max_turns ≥ 1`, the retained history after any
sequence of appends to a fresh memory is exactly the last `2*max_turns`
appended messages in order; its length never exceeds `2*max_turns`, and
after `2*(max_turns+3)` appends it is exactly `2*max_turns` (the most
recent messages).  (For `max_turns = 0` the Python slice `[-0:]` keeps
everything, so the bound fails — see the counterexample.) -/
theorem memory_sliding_window (T : Nat) (hT : 1 ≤ T)
    (msgs : List (String × String × String)) :
    ((Memory.init T).addAll msgs).conversation_history =
      pyTakeLast (msgs.map Message.ofTriple) (T * 2) ∧
    ((Memory.init T).addAll msgs).conversation_history.length ≤ T * 2 ∧
    (msgs.length = (T + 3) * 2 →
      ((Memory.init T).addAll msgs).conversation_history =
        (msgs.map Message.ofTriple).drop 6 ∧
      ((Memory.init T).addAll msgs).conversation_history.length = T * 2) := by
  have h0 := Memory.addAll_history msgs (Memory.init T) (by simp [Memory.init, pyTakeLast])
  have hh : ((Memory.init T).addAll msgs).conversation_history =
      pyTakeLast (msgs.map Message.ofTriple) (T * 2) := by
    rw [h0.1]
    simp [Memory.init]
  refine ⟨hh, ?_, ?_⟩
  · rw [hh, pyTakeLast_length]
    have : ¬(T * 2 = 0) := by omega
    simp [this]
  · intro hlen
    have hmaplen : (msgs.map Message.ofTriple).length = (T + 3) * 2 := by
      simp [hlen]
    constructor
    · rw [hh]
      unfold pyTakeLast
      have : ¬(T * 2 = 0) := by omega
      simp only [if_neg this, hmaplen]
      congr 1
      omega
    · rw [hh, pyTakeLast_length]
      have : ¬(T * 2 = 0) := by omega
      simp [this, hmaplen]

theorem memory_sliding_window_witness :
    ((Memory.init 1).addAll
      [("user", "m1", "t1"), ("assistant", "m2", "t2"), ("user", "m3", "t3"),
       ("assistant", "m4", "t4"), ("user", "m5", "t5"), ("assistant", "m6", "t6"),
       ("user", "m7", "t7"), ("assistant", "m8", "t8")]).conversation_history =
      [⟨"user", "m7", "t7"⟩, ⟨"assistant", "m8", "t8"⟩] := by
  have h := memory_sliding_window 1 (by decide)
    [("user", "m1", "t1"), ("assistant", "m2", "t2"), ("user", "m3", "t3"),
     ("assistant", "m4", "t4"), ("user", "m5", "t5"), ("assistant", "m6", "t6"),
     ("user", "m7", "t7"), ("assistant", "m8", "t8")]
  obtain ⟨hd, _⟩ := h.2.2 (by decide)
  rw [hd]
  decide

/-- C5 counterexample: with `max_turns = 0` the slice `history[-0:]` keeps
the whole list, so appending `2*(0+3) = 6` messages retains 6 messages, not
`2*max_turns = 0`. -/
theorem memory_zero_capacity_counterexample :
    ((Memory.init 0).addAll
      [("user", "m1", "t1"), ("assistant", "m2", "t2"), ("user", "m3", "t3"),
       ("assistant", "m4", "t4"), ("user", "m5", "t5"), ("assistant", "m6", "t6")]
      ).conversation_history.length = 6 ∧
    (Memory.init 0).max_turns * 2 = 0 := by
  refine ⟨by decide, by decide⟩

/-! ## Chat-level lemmas -/

theorem VectorStore.query_empty (embed : String → Except String (List Int))
    (q : String) (n : Nat) (v : List Int) (h : embed q = .ok v) :
    VectorStore.query embed VectorStore.init q n = .ok [] := by
  unfold VectorStore.query VectorStore.init
  simp only [bind, Except.bind]
  rw [h]
  simp [rankAll]

theorem VectorStore.query_isOk (embed : String → Except String (List Int))
    (vs : VectorStore) (q : String) (n : Nat)
    (h : ∃ v, embed q = Except.ok v) :
    ∃ facts, VectorStore.query embed vs q n = .ok facts := by
  obtain ⟨v, hv⟩ := h
  unfold VectorStore.query
  simp only [bind, Except.bind]
  rw [hv]
  exact ⟨_, rfl⟩

theorem SparrowBot.build_context_prompt_isOk
    (embed : String → Except String (List Int)) (vs : VectorStore) (mem : Memory)
    (msg : String) (h : ∃ v, embed msg = Except.ok v) :
    ∃ p, SparrowBot.build_context_prompt embed vs mem msg = .ok p := by
  obtain ⟨facts, hq⟩ := VectorStore.query_isOk embed vs msg 2 h
  unfold SparrowBot.build_context_prompt
  simp only [bind, Except.bind]
  rw [hq]
  exact ⟨_, rfl⟩

theorem pyChoice_mem (l : List String) (i : Nat) (h : l ≠ []) : pyChoice l i ∈ l := by
  unfold pyChoice
  have hlen : 0 < l.length := List.length_pos.mpr h
  have hi : i % l.length < l.length := Nat.mod_lt _ hlen
  rw [List.getD_eq_getElem l "" hi]
  exact List.getElem_mem hi

theorem Memory.add_message_getLast (m : Memory) (role content ts : String) :
    (m.add_message role content ts).conversation_history.getLast? = some ⟨role, content, ts⟩ := by
  rw [Memory.add_message_history]
  unfold pyTakeLast
  split
  · exact List.getLast?_concat _
  · rw [List.drop_append_eq_append_drop]
    have h2 : (m.conversation_history ++ [(⟨role, content, ts⟩ : Message)]).length -
        m.max_turns * 2 - m.conversation_history.length = 0 := by
      simp
      omega
    rw [h2, List.drop_zero]
    exact List.getLast?_concat _

/-- Calculator path of `chat`: the user message and the formatted
calculator response are recorded, nothing else runs. -/
theorem SparrowBot.chat_calc (env : ChatEnv) (bot : SparrowBot) (msg r : String)
    (hc : SparrowBot.check_for_calculation msg = some r) :
    SparrowBot.chat env bot msg = .ok ⟨r,
      (bot.memory.add_message "user" msg env.tsUser).add_message "assistant" r env.tsAsst,
      0, 0⟩ := by
  unfold SparrowBot.chat
  rw [hc]

/-- Offline path of `chat`. -/
theorem SparrowBot.chat_offline (env : ChatEnv) (bot : SparrowBot) (msg : String)
    (facts : List String) (hmodel : bot.model = none)
    (hc : SparrowBot.check_for_calculation msg = none)
    (hq : VectorStore.query env.embed bot.vector_store msg 1 = .ok facts) :
    SparrowBot.chat env bot msg = .ok
      ⟨SparrowBot.offlineResponse env facts ++ " [Offline Mode]",
       (bot.memory.add_message "user" msg env.tsUser).add_message "assistant"
         (SparrowBot.offlineResponse env facts ++ " [Offline Mode]") env.tsAsst,
       1, 0⟩ := by
  unfold SparrowBot.chat
  rw [hc]
  dsimp only
  rw [hmodel]
  simp only [bind, Except.bind]
  rw [hq]

/-- Online path of `chat`, backend success. -/
theorem SparrowBot.chat_online_ok (env : ChatEnv) (bot : SparrowBot) (msg : String)
    (b : String → Except BackendErr String) (p txt : String)
    (hmodel : bot.model = some b)
    (hc : SparrowBot.check_for_calculation msg = none)
    (hp : SparrowBot.build_context_prompt env.embed bot.vector_store
            (bot.memory.add_message "user" msg env.tsUser) msg = .ok p)
    (hb : b p = .ok txt) :
    SparrowBot.chat env bot msg = .ok ⟨txt,
      (bot.memory.add_message "user" msg env.tsUser).add_message "assistant" txt env.tsAsst,
      1, 1⟩ := by
  unfold SparrowBot.chat
  rw [hc]
  dsimp only
  rw [hmodel]
  simp only [bind, Except.bind]
  rw [hp]
  dsimp only
  rw [hb]

/-- Online path of `chat`, backend failure: the matching apology is
returned and memory keeps only the user message. -/
theorem SparrowBot.chat_online_err (env : ChatEnv) (bot : SparrowBot) (msg : String)
    (b : String → Except BackendErr String) (p : String) (e : BackendErr)
    (hmodel : bot.model = some b)
    (hc : SparrowBot.check_for_calculation msg = none)
    (hp : SparrowBot.build_context_prompt env.embed bot.vector_store
            (bot.memory.add_message "user" msg env.tsUser) msg = .ok p)
    (hb : b p = .error e) :
    SparrowBot.chat env bot msg = .ok ⟨SparrowBot.apologyOf e,
      bot.memory.add_message "user" msg env.tsUser, 1, 1⟩ := by
  unfold SparrowBot.chat
  rw [hc]
  dsimp only
  rw [hmodel]
  simp only [bind, Except.bind]
  rw [hp]
  dsimp only
  rw [hb]

/-- Helper: when the embedding capability succeeds on every input, `chat`
always returns (backend failures included). -/
theorem SparrowBot.chat_total (env : ChatEnv) (bot : SparrowBot) (msg : String)
    (hemb : ∀ s, ∃ v, env.embed s = Except.ok v) :
    ∃ out, SparrowBot.chat env bot msg = .ok out := by
  cases hc : SparrowBot.check_for_calculation msg with
  | some r => exact ⟨_, SparrowBot.chat_calc env bot msg r hc⟩
  | none =>
    cases hmodel : bot.model with
    | none =>
      obtain ⟨facts, hq⟩ :=
        VectorStore.query_isOk env.embed bot.vector_store msg 1 (hemb msg)
      exact ⟨_, SparrowBot.chat_offline env bot msg facts hmodel hc hq⟩
    | some b =>
      obtain ⟨p, hp⟩ := SparrowBot.build_context_prompt_isOk env.embed bot.vector_store
        (bot.memory.add_message "user" msg env.tsUser) msg (hemb msg)
      cases hb : b p with
      | ok txt => exact ⟨_, SparrowBot.chat_online_ok env bot msg b p txt hmodel hc hp hb⟩
      | error e => exact ⟨_, SparrowBot.chat_online_err env bot msg b p e hmodel hc hp hb⟩

theorem ne_of_data_head {a b : String} (ca cb : Char) (ha : a.data.head? = some ca)
    (hb : b.data.head? = some cb) (hne : ca ≠ cb) : a ≠ b := by
  intro h
  rw [h, hb] at ha
  exact hne (Option.some.inj ha).symm

/-- C6 (amended): querying the empty index returns the empty sequence, not
an error, whenever the embedding call succeeds; and when the embedding
capability never fails, no error escapes `chat` (backend failures are
caught and answered).  A failing embedding/retrieval call, however, is NOT
caught at the `chat` boundary and propagates to the caller as a raw
exception — see the counterexample. -/
theorem retrieval_empty_and_chat_total :
    (∀ (embed : String → Except String (List Int)) (q : String) (n : Nat) (v : List Int),
      embed q = .ok v → VectorStore.query embed VectorStore.init q n = .ok []) ∧
    (∀ (env : ChatEnv) (bot : SparrowBot) (msg : String),
      (∀ s, ∃ v, env.embed s = Except.ok v) →
      ∃ out, SparrowBot.chat env bot msg = .ok out) :=
  ⟨VectorStore.query_empty, SparrowBot.chat_total⟩

theorem retrieval_empty_and_chat_total_witness :
    VectorStore.query (fun _ => Except.ok [1, 2]) VectorStore.init "ahoy" 3 = .ok [] ∧
    (SparrowBot.chat ⟨fun _ => .ok [1, 2], "t1", "t2", 0⟩
      ⟨none, VectorStore.init, Memory.init 10⟩ "ahoy there" =
      .ok ⟨"Arr! I be Cap'n Jack Sparrow! [Offline Mode]",
           ⟨10, [⟨"user", "ahoy there", "t1"⟩,
             ⟨"assistant", "Arr! I be Cap'n Jack Sparrow! [Offline Mode]", "t2"⟩]⟩, 1, 0⟩) := by
  constructor
  · exact retrieval_empty_and_chat_total.1 _ "ahoy" 3 [1, 2] rfl
  · have htot := retrieval_empty_and_chat_total.2
      ⟨fun _ => .ok [1, 2], "t1", "t2", 0⟩ ⟨none, VectorStore.init, Memory.init 10⟩
      "ahoy there" (fun _ => ⟨[1, 2], rfl⟩)
    exact by decide

/-- C6 counterexample: a retrieval/embedding failure propagates out of
`chat` as a raw exception (nothing catches it). -/
theorem retrieval_error_escape_counterexample :
    SparrowBot.chat ⟨fun _ => .error "embedding backend down", "t1", "t2", 0⟩
      ⟨none, VectorStore.init, Memory.init 10⟩ "Tell me of the Black Pearl" =
      .error "embedding backend down" := by
  decide

/-- C7: each backend failure category is mapped to its own apology string
(`Unauthenticated`, `ResourceExhausted`, all other exceptions), the three
apologies are pairwise distinct, no backend failure escapes (`chat`
returns the apology), and — given the embedding capability succeeds —
`chat` returns a string for every input message. -/
theorem backend_failure_apologies :
    (∀ (env : ChatEnv) (bot : SparrowBot) (msg : String)
      (b : String → Except BackendErr String) (p : String) (e : BackendErr),
      bot.model = some b →
      SparrowBot.check_for_calculation msg = none →
      SparrowBot.build_context_prompt env.embed bot.vector_store
        (bot.memory.add_message "user" msg env.tsUser) msg = .ok p →
      b p = .error e →
      SparrowBot.chat env bot msg =
        .ok ⟨SparrowBot.apologyOf e, bot.memory.add_message "user" msg env.tsUser, 1, 1⟩) ∧
    (SparrowBot.apologyOf .unauthenticated = SparrowBot.apologyAuth ∧
     SparrowBot.apologyOf .resourceExhausted = SparrowBot.apologyQuota ∧
     ∀ m, SparrowBot.apologyOf (.other m) = SparrowBot.apologyOther m) ∧
    (SparrowBot.apologyAuth ≠ SparrowBot.apologyQuota ∧
     (∀ m, SparrowBot.apologyAuth ≠ SparrowBot.apologyOther m) ∧
     (∀ m, SparrowBot.apologyQuota ≠ SparrowBot.apologyOther m)) ∧
    (∀ (env : ChatEnv) (bot : SparrowBot) (msg : String),
      (∀ s, ∃ v, env.embed s = Except.ok v) →
      ∃ out, SparrowBot.chat env bot msg = .ok out) := by
  refine ⟨SparrowBot.chat_online_err, ⟨rfl, rfl, fun m => rfl⟩, ⟨?_, ?_, ?_⟩,
    SparrowBot.chat_total⟩
  · exact ne_of_data_head 'A' 'B' rfl rfl (by decide)
  · exact fun m => ne_of_data_head 'A' 'C' rfl rfl (by decide)
  · exact fun m => ne_of_data_head 'B' 'C' rfl rfl (by decide)

theorem backend_failure_apologies_witness :
    SparrowBot.chat ⟨fun _ => .ok [1], "t1", "t2", 0⟩
      ⟨some (fun _ => .error .unauthenticated), VectorStore.init, Memory.init 10⟩ "hello" =
      .ok ⟨"Arr! The Google guards blocked me. Check yer API key, savvy?",
           ⟨10, [⟨"user", "hello", "t1"⟩]⟩, 1, 1⟩ := by
  have h := backend_failure_apologies.1 ⟨fun _ => .ok [1], "t1", "t2", 0⟩
    ⟨some (fun _ => .error .unauthenticated), VectorStore.init, Memory.init 10⟩ "hello"
    (fun _ => .error .unauthenticated) "\nCurrent user message: hello" .unauthenticated
    rfl (by decide) (by decide) rfl
  rw [h]
  decide

/-- C8: when arithmetic extraction matches, `chat` records the user message
and the formatted calculation response in memory, returns that response,
and performs no retrieval query and no backend call. -/
theorem chat_calculator_frame (env : ChatEnv) (bot : SparrowBot) (msg r : String)
    (hc : SparrowBot.check_for_calculation msg = some r) :
    SparrowBot.chat env bot msg = .ok ⟨r,
      (bot.memory.add_message "user" msg env.tsUser).add_message "assistant" r env.tsAsst,
      0, 0⟩ :=
  SparrowBot.chat_calc env bot msg r hc

theorem chat_calculator_frame_witness :
    SparrowBot.chat ⟨fun _ => .error "unused", "t1", "t2", 0⟩
      ⟨none, VectorStore.init, Memory.init 10⟩ "calculate 2 + 2" =
      .ok ⟨"By me calculations, that be **4**, savvy?",
           ⟨10, [⟨"user", "calculate 2 + 2", "t1"⟩,
             ⟨"assistant", "By me calculations, that be **4**, savvy?", "t2"⟩]⟩, 0, 0⟩ := by
  have h := chat_calculator_frame ⟨fun _ => .error "unused", "t1", "t2", 0⟩
    ⟨none, VectorStore.init, Memory.init 10⟩ "calculate 2 + 2"
    "By me calculations, that be **4**, savvy?" (by decide)
  rw [h]
  decide

/-- C9: with no backend configured and no calculator match, the response is
tagged `[Offline Mode]`; it interpolates the first retrieved fact into one
of the fixed templates when a fact is found, and is one of the fixed
generic fallback lines otherwise. -/
theorem chat_offline_mode (env : ChatEnv) (bot : SparrowBot) (msg : String)
    (facts : List String) (hmodel : bot.model = none)
    (hc : SparrowBot.check_for_calculation msg = none)
    (hq : VectorStore.query env.embed bot.vector_store msg 1 = .ok facts) :
    SparrowBot.chat env bot msg = .ok
      ⟨SparrowBot.offlineResponse env facts ++ " [Offline Mode]",
       (bot.memory.add_message "user" msg env.tsUser).add_message "assistant"
         (SparrowBot.offlineResponse env facts ++ " [Offline Mode]") env.tsAsst,
       1, 0⟩ ∧
    (facts = [] → SparrowBot.offlineResponse env facts ∈ SparrowBot.offlineFallbacks) ∧
    (∀ (f : String) (rest : List String), facts = f :: rest →
      ∃ t ∈ SparrowBot.offlineTemplates,
        SparrowBot.offlineResponse env facts = pyFormatFact t f) := by
  refine ⟨SparrowBot.chat_offline env bot msg facts hmodel hc hq, ?_, ?_⟩
  · intro hf
    subst hf
    exact pyChoice_mem _ _ (by decide)
  · intro f rest hf
    subst hf
    exact ⟨pyChoice SparrowBot.offlineTemplates env.choiceIdx,
      pyChoice_mem _ _ (by decide), rfl⟩

theorem chat_offline_mode_witness :
    SparrowBot.chat ⟨fun _ => .ok [0, 1], "t1", "t2", 1⟩
      ⟨none, ⟨["The Pearl is fast."], [[0, 1]]⟩, Memory.init 10⟩ "tell me of yer ship" =
      .ok ⟨"By the powers! Did ye know? The Pearl is fast. [Offline Mode]",
           ⟨10, [⟨"user", "tell me of yer ship", "t1"⟩,
             ⟨"assistant", "By the powers! Did ye know? The Pearl is fast. [Offline Mode]",
              "t2"⟩]⟩, 1, 0⟩ := by
  have h := (chat_offline_mode ⟨fun _ => .ok [0, 1], "t1", "t2", 1⟩
    ⟨none, ⟨["The Pearl is fast."], [[0, 1]]⟩, Memory.init 10⟩ "tell me of yer ship"
    ["The Pearl is fast."] rfl (by decide) (by decide)).1
  rw [h]
  decide

/-- C10: on the calculator, offline and successful backend paths the
returned string is exactly the assistant message appended to memory; on a
backend failure the apology is returned with no assistant message appended
— memory then ends with the user message. -/
theorem chat_memory_consistency :
    (∀ (env : ChatEnv) (bot : SparrowBot) (msg r : String),
      SparrowBot.check_for_calculation msg = some r →
      SparrowBot.chat env bot msg = .ok ⟨r,
        (bot.memory.add_message "user" msg env.tsUser).add_message "assistant" r env.tsAsst,
        0, 0⟩) ∧
    (∀ (env : ChatEnv) (bot : SparrowBot) (msg : String) (facts : List String),
      bot.model = none →
      SparrowBot.check_for_calculation msg = none →
      VectorStore.query env.embed bot.vector_store msg 1 = .ok facts →
      ∃ resp, SparrowBot.chat env bot msg = .ok ⟨resp,
        (bot.memory.add_message "user" msg env.tsUser).add_message "assistant" resp env.tsAsst,
        1, 0⟩) ∧
    (∀ (env : ChatEnv) (bot : SparrowBot) (msg : String)
      (b : String → Except BackendErr String) (p txt : String),
      bot.model = some b →
      SparrowBot.check_for_calculation msg = none →
      SparrowBot.build_context_prompt env.embed bot.vector_store
        (bot.memory.add_message "user" msg env.tsUser) msg = .ok p →
      b p = .ok txt →
      SparrowBot.chat env bot msg = .ok ⟨txt,
        (bot.memory.add_message "user" msg env.tsUser).add_message "assistant" txt env.tsAsst,
        1, 1⟩) ∧
    (∀ (env : ChatEnv) (bot : SparrowBot) (msg : String)
      (b : String → Except BackendErr String) (p : String) (e : BackendErr),
      bot.model = some b →
      SparrowBot.check_for_calculation msg = none →
      SparrowBot.build_context_prompt env.embed bot.vector_store
        (bot.memory.add_message "user" msg env.tsUser) msg = .ok p →
      b p = .error e →
      SparrowBot.chat env bot msg = .ok ⟨SparrowBot.apologyOf e,
        bot.memory.add_message "user" msg env.tsUser, 1, 1⟩ ∧
      (bot.memory.add_message "user" msg env.tsUser).conversation_history.getLast? =
        some ⟨"user", msg, env.tsUser⟩) := by
  refine ⟨SparrowBot.chat_calc, ?_, SparrowBot.chat_online_ok, ?_⟩
  · intro env bot msg facts hmodel hc hq
    exact ⟨_, SparrowBot.chat_offline env bot msg facts hmodel hc hq⟩
  · intro env bot msg b p e hmodel hc hp hb
    exact ⟨SparrowBot.chat_online_err env bot msg b p e hmodel hc hp hb,
      Memory.add_message_getLast _ _ _ _⟩

theorem chat_memory_consistency_witness :
    SparrowBot.chat ⟨fun _ => .ok [], "t1", "t2", 0⟩
      ⟨some (fun _ => .error (.other "boom")), VectorStore.init, Memory.init 10⟩ "hello" =
      .ok ⟨"Curse the black spot! Something went wrong: boom",
           ⟨10, [⟨"user", "hello", "t1"⟩]⟩, 1, 1⟩ ∧
    (⟨10, [⟨"user", "hello", "t1"⟩]⟩ : Memory).conversation_history.getLast? =
      some ⟨"user", "hello", "t1"⟩ := by
  have h := chat_memory_consistency.2.2.2 ⟨fun _ => .ok [], "t1", "t2", 0⟩
    ⟨some (fun _ => .error (.other "boom")), VectorStore.init, Memory.init 10⟩ "hello"
    (fun _ => .error (.other "boom")) "\nCurrent user message: hello" (.other "boom")
    rfl (by decide) (by decide) rfl
  obtain ⟨h1, h2⟩ := h
  rw [h1]
  exact ⟨by decide, by decide⟩
